import Mathlib

/-!
# FerroFrame core engine — verification development

A shallow embedding of the FerroFrame terminal-UI core (layout engine,
input decoder, renderer, component/host lifecycle and scheduling) together
with theorems about the properties its specification states.

Conventions used throughout:
* JavaScript numbers are modelled as rationals (`ℚ`); all arithmetic the
  embedded code performs is exact on the inputs considered.
* JavaScript strings processed byte-by-byte by the input decoder are
  modelled as `List Char`; strings handled as opaque lines by the renderer
  are modelled as `String`.
* Mutation is modelled by explicit state passing: a method that mutates
  `this` becomes a function returning the updated value.
* `null`/`undefined` become `Option`; a thrown exception becomes
  `Except.error`.
-/

namespace FerroFrame

/-! ## Input decoder (src InputManager)

`InputManager.parseKey` receives a raw data chunk and produces a key
object; `InputManager.handleData` emits a `keypress` event whenever
`parseKey` returns a truthy value.  In the source `parseKey` always
returns the key object it allocates (there is no `return null`), so the
emitted event is always present.  `InputManager.parseMouse` decodes SGR
mouse sequences but is never invoked by `handleData`. -/

/-- The key object built by `InputManager.parseKey`:
`{sequence, name, ctrl, meta, shift, code}`. -/
structure Key where
  sequence : List Char
  name : Option String
  ctrl : Bool
  meta : Bool
  shift : Bool
  code : Option Nat
deriving Repr, DecidableEq

/-- The mouse object built by `InputManager.parseMouse`. -/
structure Mouse where
  x : Int
  y : Int
  button : Option String
  action : String
  shift : Bool
  meta : Bool
  ctrl : Bool
deriving Repr, DecidableEq

/-- Leading run of decimal digits of a character list, and the rest. -/
def takeDigits : List Char → List Char × List Char
  | [] => ([], [])
  | c :: cs =>
    if c.isDigit then
      let (d, r) := takeDigits cs
      (c :: d, r)
    else ([], c :: cs)

/-- `parseInt(ds, 10)` on a nonempty run of decimal digits. -/
def digitsToNat (ds : List Char) : Nat :=
  ds.foldl (fun a c => a * 10 + (c.toNat - 48)) 0

/-- One attempt of the regex `/\x1b\[(\d+)~/` at the head of the list:
ESC `[` digits `~`. -/
def fnMatchAt : List Char → Option Nat
  | '\x1b' :: '[' :: rest =>
    match takeDigits rest with
    | ([], _) => none
    | (ds, '~' :: _) => some (digitsToNat ds)
    | (_, _) => none
  | _ => none

/-- `str.match(/\x1b\[(\d+)~/)`: first position where the pattern matches. -/
def fnMatch : List Char → Option Nat
  | [] => none
  | c :: cs =>
    match fnMatchAt (c :: cs) with
    | some n => some n
    | none => fnMatch cs

/-- One attempt of the SGR mouse regex `/\x1b\[<(\d+);(\d+);(\d+)([Mm])/`
at the head of the list. Returns `(buttonCode, x, y, finalChar)`. -/
def sgrMatchAt : List Char → Option (Nat × Nat × Nat × Char)
  | '\x1b' :: '[' :: '<' :: rest =>
    match takeDigits rest with
    | ([], _) => none
    | (bs, ';' :: r1) =>
      match takeDigits r1 with
      | ([], _) => none
      | (xs, ';' :: r2) =>
        match takeDigits r2 with
        | ([], _) => none
        | (ys, m :: _) =>
          if m = 'M' ∨ m = 'm' then some (digitsToNat bs, digitsToNat xs, digitsToNat ys, m)
          else none
        | (_, []) => none
      | (_, _) => none
    | (_, _) => none
  | _ => none

/-- First position where the SGR mouse pattern matches. -/
def sgrScan : List Char → Option (Nat × Nat × Nat × Char)
  | [] => none
  | c :: cs =>
    match sgrMatchAt (c :: cs) with
    | some r => some r
    | none => sgrScan cs

/-- The single-printable-character / control-character branch of
`parseKey` (`str.length === 1`). -/
def singleCharKey (base : Key) (c : Char) : Key :=
  let code := c.toNat
  if code < 32 then
    { base with ctrl := true,
                name := some (String.mk [(Char.ofNat (code + 64)).toLower]),
                code := some code }
  else
    { base with name := some (String.mk [c]),
                shift := decide (c.toUpper = c ∧ c.toLower ≠ c),
                code := some code }

/-- `InputManager.parseKey(data)`: the if/else chain over the raw chunk.
The source never returns `null`; unrecognized chunks fall through with
`name` still `null`. -/
def parseKey (s : List Char) : Key :=
  let base : Key :=
    { sequence := s, name := none, ctrl := false, meta := false,
      shift := false, code := none }
  if s = ['\x03'] then { base with name := some "c", ctrl := true }
  else if s = ['\x1b'] then { base with name := some "escape" }
  else if s = ['\r'] ∨ s = ['\n'] then { base with name := some "enter" }
  else if s = ['\t'] then { base with name := some "tab" }
  else if s = ['\x7f'] ∨ s = ['\x08'] then { base with name := some "backspace" }
  else if s = ['\x1b', '[', 'A'] then { base with name := some "up" }
  else if s = ['\x1b', '[', 'B'] then { base with name := some "down" }
  else if s = ['\x1b', '[', 'C'] then { base with name := some "right" }
  else if s = ['\x1b', '[', 'D'] then { base with name := some "left" }
  else if s = ['\x1b', '[', 'H'] then { base with name := some "home" }
  else if s = ['\x1b', '[', 'F'] then { base with name := some "end" }
  else if s = ['\x1b', '[', '5', '~'] then { base with name := some "pageup" }
  else if s = ['\x1b', '[', '6', '~'] then { base with name := some "pagedown" }
  else if s = ['\x1b', '[', '3', '~'] then { base with name := some "delete" }
  else if ['\x1b', '['].isPrefixOf s ∧ s.getLast? = some '~' then
    match fnMatch s with
    | some code =>
      if 11 ≤ code ∧ code ≤ 24 then { base with name := some ("f" ++ toString (code - 10)) }
      else base
    | none => base
  else
    match s with
    | [c] => singleCharKey base c
    | _ =>
      if ['\x1b'].isPrefixOf s then
        -- Alt/Meta combination: `key.meta = true`, and `key.name` only
        -- when the tail after ESC is a single character
        let ch := s.drop 1
        if ch.length = 1 then { base with meta := true, name := some (String.mk ch) }
        else { base with meta := true }
      else base

/-- Events the input manager can emit for a data chunk. -/
inductive InputEvent where
  | keypress (k : Key)
  | mousepress (m : Mouse)
deriving Repr, DecidableEq

/-- `InputManager.handleData(data)`: parses the chunk with `parseKey` and,
since the returned key object is always truthy, always emits a `keypress`
event carrying it.  `parseMouse` is never called here. -/
def handleData (s : List Char) : Option InputEvent :=
  let key := parseKey s
  some (InputEvent.keypress key)

/-- `InputManager.parseMouse(data)`: SGR decoding with bit tests on the
button code (`&3` button, `&4/&8/&16` modifiers, `&64` scroll). -/
def parseMouse (s : List Char) : Option Mouse :=
  match sgrScan s with
  | none => none
  | some (code, x, y, rel) =>
    let m : Mouse :=
      { x := (x : Int) - 1, y := (y : Int) - 1, button := none,
        action := if rel = 'm' then "release" else "press",
        shift := false, meta := false, ctrl := false }
    let m := if code &&& 3 = 0 then { m with button := some "left" }
             else if code &&& 3 = 1 then { m with button := some "middle" }
             else if code &&& 3 = 2 then { m with button := some "right" }
             else m
    let m := if code &&& 4 ≠ 0 then { m with shift := true } else m
    let m := if code &&& 8 ≠ 0 then { m with meta := true } else m
    let m := if code &&& 16 ≠ 0 then { m with ctrl := true } else m
    if code &&& 64 ≠ 0 then
      some { m with action := "scroll",
                    button := some (if code &&& 1 ≠ 0 then "down" else "up") }
    else some m

end FerroFrame

/-- **C2, counterexample.**  The chunk `"ab"` matches none of the decoder's
patterns, yet `handleData` emits a keypress event for it (with `name` still
`null`): unrecognized chunks are not dropped, contrary to the claim. -/
theorem C2_unrecognized_not_dropped_cex :
    (FerroFrame.handleData ['a', 'b']).isSome = true ∧
    (FerroFrame.parseKey ['a', 'b']).name = none := by
  constructor <;> rfl

/-- **C2, amended.**  `parseKey` never yields `null`: every chunk of length
at least 2 that does not begin with the escape byte falls through every
branch and is returned with `name = null`, `no` modifiers and no code — and
`handleData` still emits a keypress event for it instead of dropping it. -/
theorem C2_unrecognized_chunk_emitted (a b : Char) (t : List Char)
    (ha : a ≠ '\x1b') :
    FerroFrame.parseKey (a :: b :: t) =
      { sequence := a :: b :: t, name := none, ctrl := false, meta := false,
        shift := false, code := none } ∧
    FerroFrame.handleData (a :: b :: t) =
      some (FerroFrame.InputEvent.keypress (FerroFrame.parseKey (a :: b :: t))) := by
  refine ⟨?_, rfl⟩
  simp [FerroFrame.parseKey, List.isPrefixOf, ha, Ne.symm ha]

/-- **C2, witness** for the amended theorem at the chunk `"ab"`. -/
theorem C2_unrecognized_chunk_emitted_witness :
    ('a' : Char) ≠ '\x1b' ∧
    FerroFrame.parseKey ['a', 'b'] =
      { sequence := ['a', 'b'], name := none, ctrl := false, meta := false,
        shift := false, code := none } := by
  refine ⟨by decide, (C2_unrecognized_chunk_emitted 'a' 'b' [] (by decide)).1⟩

/-- **C9.**  The data handler emits exactly the key parser's result for every
chunk — it never produces a mouse event.  In particular the SGR mouse
sequence `ESC [ < 0 ; 5 ; 3 M` is emitted as a key event with `meta = true`
and `name = null`, even though `parseMouse` — which `handleData` never
invokes — would decode it to a left-button press at `(4, 2)`. -/
theorem C9_no_mouse_events_from_handleData :
    (∀ s : List Char,
      FerroFrame.handleData s =
        some (FerroFrame.InputEvent.keypress (FerroFrame.parseKey s))) ∧
    FerroFrame.parseKey ['\x1b', '[', '<', '0', ';', '5', ';', '3', 'M'] =
      { sequence := ['\x1b', '[', '<', '0', ';', '5', ';', '3', 'M'],
        name := none, ctrl := false, meta := true, shift := false,
        code := none } ∧
    FerroFrame.parseMouse ['\x1b', '[', '<', '0', ';', '5', ';', '3', 'M'] =
      some { x := 4, y := 2, button := some "left", action := "press",
             shift := false, meta := false, ctrl := false } := by
  exact ⟨fun s => rfl, by decide, by decide⟩

namespace FerroFrame

/-! ## Renderer (src Renderer)

`Renderer.render(content)` splits the content into lines, stores them as
the current buffer and calls `performRender`, which writes to the terminal
only the lines that differ from the previous buffer (plus, in fullscreen
mode, an unconditional cursor-home escape), then copies the current buffer
into `previousBuffer`.  Terminal writes are modelled as the list of strings
passed to `process.stdout.write`, in order. -/

/-- `moveCursor(x, y)` from the ANSI utilities. -/
def moveCursor (x y : Nat) : String :=
  "\x1b[" ++ toString (y + 1) ++ ";" ++ toString (x + 1) ++ "H"

/-- `str.slice(0, n)`: the first `n` characters of a string. -/
def jsSliceTo (s : String) (n : Nat) : String :=
  String.mk (s.data.take n)

/-- Helper for `output.split('\n')`: splits at every newline, keeping empty
pieces, accumulating the current piece in reverse. -/
def splitLinesAux (acc : List Char) : List Char → List String
  | [] => [String.mk acc.reverse]
  | c :: cs =>
    if c = '\n' then String.mk acc.reverse :: splitLinesAux [] cs
    else splitLinesAux (c :: acc) cs

/-- `output.split('\n')` as in `Renderer.render`. -/
def splitLines (s : String) : List String :=
  splitLinesAux [] s.data

/-- Renderer configuration: fullscreen flag and terminal dimensions. -/
structure RenderConfig where
  fullscreen : Bool
  width : Nat
  height : Nat
deriving Repr, DecidableEq

/-- The writes `performRender` makes for line index `i`:
nothing when the line equals the previous buffer's line, otherwise an
optional cursor move, the clear-line escape, the (truncated) line, and an
optional newline. -/
def lineWrites (cfg : RenderConfig) (buffer prev : List String)
    (maxLines i : Nat) : List String :=
  let line := (buffer.get? i).getD ""
  let prevLine := prev.get? i
  if some line ≠ prevLine then
    (if cfg.fullscreen then [moveCursor 0 i] else []) ++
    ["\x1b[2K", jsSliceTo line cfg.width] ++
    (if !cfg.fullscreen || i < maxLines - 1 then ["\n"] else [])
  else []

/-- `Renderer.performRender()`: cursor home in fullscreen mode, the
differential line loop up to `min(buffer.length, height)`, then explicit
clearing of lines the previous (longer) buffer still occupied. -/
def performRender (cfg : RenderConfig) (buffer prev : List String) : List String :=
  let maxLines := min buffer.length cfg.height
  (if cfg.fullscreen then [moveCursor 0 0] else []) ++
  ((List.range maxLines).foldl (fun acc i => acc ++ lineWrites cfg buffer prev maxLines i) []) ++
  (if prev.length > buffer.length then
    ((List.range' buffer.length (prev.length - buffer.length)).foldl
      (fun acc i => acc ++ (if cfg.fullscreen then [moveCursor 0 i] else []) ++ ["\x1b[2K"]) [])
   else [])

/-- Renderer state: config, the two line buffers, and the initialized flag. -/
structure RendererState where
  config : RenderConfig
  buffer : List String
  previousBuffer : List String
  isInitialized : Bool
deriving Repr, DecidableEq

/-- `Renderer.render(content)` for string content: no-op when not
initialized; otherwise split on newlines, store the buffer, emit the
differential writes and copy the buffer into `previousBuffer`.  Returns the
updated state and the writes performed. -/
def Renderer.render (st : RendererState) (content : String) :
    RendererState × List String :=
  if !st.isInitialized then (st, [])
  else
    let lines := splitLines content
    let writes := performRender st.config lines st.previousBuffer
    ({ st with buffer := lines, previousBuffer := lines }, writes)

/-- Folding an append of per-index write lists that are all empty leaves the
accumulator unchanged. -/
theorem foldl_append_eq_of_forall_nil {α : Type} (f : Nat → List α) (l : List Nat)
    (acc : List α) (h : ∀ i ∈ l, f i = []) :
    l.foldl (fun a i => a ++ f i) acc = acc := by
  induction l generalizing acc with
  | nil => rfl
  | cons x xs ih =>
    have hx : f x = [] := h x (List.mem_cons_self x xs)
    have hxs : ∀ i ∈ xs, f i = [] := fun i hi => h i (List.mem_cons_of_mem x hi)
    simp [hx, ih _ hxs]

/-- When current and previous buffers coincide, no line is written. -/
theorem lineWrites_self (cfg : RenderConfig) (buffer : List String)
    (maxLines i : Nat) (hi : i < buffer.length) :
    lineWrites cfg buffer buffer maxLines i = [] := by
  unfold lineWrites
  simp [List.getElem?_eq_getElem hi]

/-- A repeated `performRender` against an identical previous buffer makes no
writes beyond the fullscreen cursor-home move. -/
theorem performRender_self (cfg : RenderConfig) (buffer : List String) :
    performRender cfg buffer buffer =
      (if cfg.fullscreen then [moveCursor 0 0] else []) := by
  unfold performRender
  have h1 : (List.range (min buffer.length cfg.height)).foldl
      (fun acc i => acc ++ lineWrites cfg buffer buffer (min buffer.length cfg.height) i) [] = [] := by
    refine foldl_append_eq_of_forall_nil _ _ _ (fun i hi => ?_)
    exact lineWrites_self cfg buffer _ i (lt_of_lt_of_le (List.mem_range.mp hi) (min_le_left _ _))
  simp [h1]

end FerroFrame

/-- **C4, counterexample.**  In fullscreen mode a second `render` with content
identical to the first still performs a terminal write (the unconditional
cursor-home escape emitted at the top of `performRender`), so the second
call does not perform zero writes in every mode as claimed. -/
theorem C4_fullscreen_second_render_writes_cex :
    (FerroFrame.Renderer.render
      (FerroFrame.Renderer.render
        ⟨⟨true, 80, 24⟩, [], [], true⟩ "hi").1 "hi").2 = ["\x1b[1;1H"] ∧
    (["\x1b[1;1H"] : List String) ≠ [] := by
  exact ⟨by decide, by decide⟩

/-- **C4, amended.**  The differential paint is idempotent up to the
fullscreen cursor-home move: a second `render` with content identical to
the previous call writes nothing at all in non-fullscreen mode, and writes
exactly the cursor-home escape (no line content) in fullscreen mode,
because every line equals the corresponding previous-buffer line. -/
theorem C4_second_render_writes (cfg : FerroFrame.RenderConfig)
    (st : FerroFrame.RendererState) (content : String)
    (hinit : st.isInitialized = true) (hcfg : st.config = cfg) :
    (FerroFrame.Renderer.render (FerroFrame.Renderer.render st content).1 content).2 =
      (if cfg.fullscreen then [FerroFrame.moveCursor 0 0] else []) := by
  unfold FerroFrame.Renderer.render
  simp [hinit, ← hcfg, FerroFrame.performRender_self]

/-- **C4, witness**: the amended theorem applied to a concrete non-fullscreen
renderer state, yielding zero writes on the second identical render. -/
theorem C4_second_render_writes_witness :
    (⟨⟨false, 80, 24⟩, [], [], true⟩ : FerroFrame.RendererState).isInitialized = true ∧
    (FerroFrame.Renderer.render
      (FerroFrame.Renderer.render
        (⟨⟨false, 80, 24⟩, [], [], true⟩ : FerroFrame.RendererState) "a\nb").1 "a\nb").2 =
      (if (false : Bool) then [FerroFrame.moveCursor 0 0] else []) := by
  exact ⟨rfl, C4_second_render_writes ⟨false, 80, 24⟩ _ "a\nb" rfl rfl⟩

namespace FerroFrame

/-! ## Component input dispatch (src Component / ComponentTree)

`Component.handleInput(key)` iterates over the children; at the first
focused child it invokes that child's `handleInput` and returns `true`
without inspecting the child's return value (in the base class the
invoked call has no effect on the result, so the embedding records only
the returned boolean).  If no child is focused it returns `false`.
`ComponentTree.handleInput(key)` tries the focused component first and
falls back to the root only when the focused component's handler returned
a falsy value. -/

/-- A component as seen by the base input dispatch: a focus flag and
children. -/
inductive IComp where
  | mk (focused : Bool) (children : List IComp)

/-- The `focused` field. -/
def IComp.focused : IComp → Bool
  | .mk f _ => f

/-- The `children` field. -/
def IComp.children : IComp → List IComp
  | .mk _ cs => cs

/-- The `for (const child of this.children)` loop of
`Component.handleInput`: returns `true` at the first focused child
(discarding that child's own `handleInput` result), `false` if none is
focused. -/
def handleInputLoop (k : Key) : List IComp → Bool
  | [] => false
  | ch :: rest => if ch.focused then true else handleInputLoop k rest

/-- `Component.handleInput(key)` (base class). -/
def Component.handleInput (c : IComp) (k : Key) : Bool :=
  handleInputLoop k c.children

/-- `ComponentTree.handleInput(key)`: focused component first, then the
root; `false` when neither consumes. -/
def ComponentTree.handleInput (focusedComponent root : Option IComp) (k : Key) : Bool :=
  match focusedComponent with
  | some fc =>
    if Component.handleInput fc k then true
    else
      match root with
      | some r => Component.handleInput r k
      | none => false
  | none =>
    match root with
    | some r => Component.handleInput r k
    | none => false

/-- A concrete key value used for the dispatch examples. -/
def sampleKey : Key :=
  { sequence := ['x'], name := some "x", ctrl := false, meta := false,
    shift := false, code := some 120 }

end FerroFrame

/-- **C3, counterexample.**  A parent whose focused child consumes nothing:
the child's `handleInput` returns `false` (it has no focused children of
its own), yet the parent's `handleInput` reports the key as consumed
(`true`), contradicting the claim that the returned boolean equals whether
the key was actually consumed. -/
theorem C3_consumed_report_cex :
    FerroFrame.Component.handleInput (.mk true []) FerroFrame.sampleKey = false ∧
    FerroFrame.Component.handleInput (.mk false [.mk true []]) FerroFrame.sampleKey = true := by
  exact ⟨rfl, rfl⟩

/-- **C3, amended.**  `Component.handleInput` returns `true` exactly when
some direct child is focused — the focused child's own result is ignored,
so consumption is over-reported; and `ComponentTree.handleInput` runs the
root's handler exactly when the focused component's handler returns
`false` (its result is the disjunction of the two). -/
theorem C3_dispatch_behavior :
    (∀ (c : FerroFrame.IComp) (k : FerroFrame.Key),
      FerroFrame.Component.handleInput c k = c.children.any FerroFrame.IComp.focused) ∧
    (∀ (fc root : FerroFrame.IComp) (k : FerroFrame.Key),
      FerroFrame.ComponentTree.handleInput (some fc) (some root) k =
        (FerroFrame.Component.handleInput fc k || FerroFrame.Component.handleInput root k)) := by
  constructor
  · intro c k
    show FerroFrame.handleInputLoop k c.children = c.children.any FerroFrame.IComp.focused
    induction c.children with
    | nil => rfl
    | cons ch rest ih =>
      by_cases h : ch.focused = true <;>
        simp [FerroFrame.handleInputLoop, h, ih]
  · intro fc root k
    by_cases h : FerroFrame.Component.handleInput fc k = true <;>
      simp [FerroFrame.ComponentTree.handleInput, h]

namespace FerroFrame

/-! ## Host lifecycle (src FerroHost)

`FerroHost.mount` throws when a component tree is already mounted —
before mutating anything — and otherwise creates the instance, starts the
host if needed and schedules the initial render.  Renderer/input-manager
construction and terminal writes in `start` are terminal side effects and
do not affect the mounted-tree state. -/

/-- A component definition passed to `mount`: a functional component or an
object-based component (the two shapes `createComponentInstance`
accepts). -/
inductive CompDef where
  | fnDef (name : String)
  | objDef (name : String)
deriving Repr, DecidableEq

/-- The normalized instance `createComponentInstance` produces (its `name`
field; `render`/`props` are opaque callbacks). -/
structure CompInstance where
  name : String
deriving Repr, DecidableEq

/-- `FerroHost.createComponentInstance(component, props)`. -/
def createComponentInstance : CompDef → CompInstance
  | .fnDef n => ⟨n⟩
  | .objDef n => ⟨n⟩

/-- Host state: the mounted tree, the running flag, the render-coalescing
dirty flag, and a count of render tasks actually enqueued. -/
structure HostState where
  componentTree : Option CompInstance
  isRunning : Bool
  isDirty : Bool
  pendingRenders : Nat
deriving Repr, DecidableEq

/-- `FerroHost.start()`: no-op when running, otherwise initializes the
terminal (side effects) and sets `isRunning`. -/
def FerroHost.start (st : HostState) : HostState :=
  if st.isRunning then st else { st with isRunning := true }

/-- `FerroHost.scheduleRender()`: returns immediately when a render is
already pending or the host is not running; otherwise marks dirty and
enqueues exactly one render task via `setImmediate`. -/
def FerroHost.scheduleRender (st : HostState) : HostState :=
  if st.isDirty || !st.isRunning then st
  else { st with isDirty := true, pendingRenders := st.pendingRenders + 1 }

/-- `FerroHost.mount(component, props)`: throws `"Component already
mounted. Call unmount() first."` when a tree is mounted (before any state
mutation); otherwise stores the new instance, starts the host if needed
and schedules the initial render. -/
def FerroHost.mount (st : HostState) (c : CompDef) : Except String HostState :=
  if st.componentTree.isSome then
    Except.error "Component already mounted. Call unmount() first."
  else
    let st := { st with componentTree := some (createComponentInstance c) }
    let st := if !st.isRunning then FerroHost.start st else st
    Except.ok (FerroHost.scheduleRender st)

/-- `FerroHost.unmount()`: no-op when nothing is mounted, otherwise awaits
the tree's cleanup hook (opaque) and clears the tree. -/
def FerroHost.unmount (st : HostState) : HostState :=
  match st.componentTree with
  | none => st
  | some _ => { st with componentTree := none }

end FerroFrame

/-- `scheduleRender` never touches the mounted tree. -/
theorem scheduleRender_componentTree (st : FerroFrame.HostState) :
    (FerroFrame.FerroHost.scheduleRender st).componentTree = st.componentTree := by
  unfold FerroFrame.FerroHost.scheduleRender
  split <;> rfl

/-- `start` never touches the mounted tree. -/
theorem start_componentTree (st : FerroFrame.HostState) :
    (FerroFrame.FerroHost.start st).componentTree = st.componentTree := by
  unfold FerroFrame.FerroHost.start
  split <;> rfl

/-- **C6.**  Mounting while a tree is already mounted fails with the
mount-conflict error — thrown before any state mutation, so the caller's
state (including the first mounted tree) is untouched — and the host stays
usable: `unmount` clears the tree and a subsequent `mount` succeeds,
installing the new instance. -/
theorem C6_second_mount_rejected (st : FerroFrame.HostState) (c : FerroFrame.CompDef)
    (h : st.componentTree.isSome = true) :
    FerroFrame.FerroHost.mount st c =
      Except.error "Component already mounted. Call unmount() first." ∧
    (FerroFrame.FerroHost.unmount st).componentTree = none ∧
    (FerroFrame.FerroHost.mount (FerroFrame.FerroHost.unmount st) c).isOk = true ∧
    ∀ st', FerroFrame.FerroHost.mount (FerroFrame.FerroHost.unmount st) c = Except.ok st' →
      st'.componentTree = some (FerroFrame.createComponentInstance c) := by
  obtain ⟨t, ht⟩ := Option.isSome_iff_exists.mp h
  have hu : (FerroFrame.FerroHost.unmount st).componentTree = none := by
    simp [FerroFrame.FerroHost.unmount, ht]
  refine ⟨by simp [FerroFrame.FerroHost.mount, h], hu, ?_, ?_⟩
  · unfold FerroFrame.FerroHost.mount
    rw [hu]
    rfl
  · intro st' hmount
    unfold FerroFrame.FerroHost.mount at hmount
    rw [hu] at hmount
    simp only [Option.isSome_none, Bool.false_eq_true, if_false, Except.ok.injEq] at hmount
    subst hmount
    rw [scheduleRender_componentTree]
    split <;> simp [start_componentTree]

/-- **C6, witness**: the theorem applied to a host with a mounted tree. -/
theorem C6_second_mount_rejected_witness :
    (⟨some ⟨"A"⟩, true, false, 0⟩ : FerroFrame.HostState).componentTree.isSome = true ∧
    FerroFrame.FerroHost.mount (⟨some ⟨"A"⟩, true, false, 0⟩ : FerroFrame.HostState)
      (FerroFrame.CompDef.objDef "B") =
      Except.error "Component already mounted. Call unmount() first." := by
  exact ⟨rfl, (C6_second_mount_rejected ⟨some ⟨"A"⟩, true, false, 0⟩
    (FerroFrame.CompDef.objDef "B") rfl).1⟩

namespace FerroFrame

/-! ## Update scheduling (src Component.setState / scheduleUpdate,
FerroHost.scheduleRender)

`setState` merges the update into the state (the merge itself is opaque
to scheduling), marks the component dirty and — when mounted — calls
`scheduleUpdate`, which enqueues a `process.nextTick` callback.  The
callback runs `update()` only when the component is still dirty and
mounted, and then clears the dirty flag, so of the n callbacks queued by
n synchronous calls only the first performs an update. -/

/-- The scheduling-relevant component state: the dirty and mounted flags,
the number of queued next-tick callbacks, and the number of `update()`
(render) passes executed so far. -/
structure SchedState where
  dirty : Bool
  mounted : Bool
  pendingTicks : Nat
  updates : Nat
deriving Repr, DecidableEq

/-- `Component.scheduleUpdate()`: enqueues one next-tick callback. -/
def Component.scheduleUpdate (s : SchedState) : SchedState :=
  { s with pendingTicks := s.pendingTicks + 1 }

/-- `Component.setState(updates)`: merge state (opaque), set `dirty`, and
schedule when mounted.  No update pass runs synchronously here. -/
def Component.setState (s : SchedState) : SchedState :=
  let s := { s with dirty := true }
  if s.mounted then Component.scheduleUpdate s else s

/-- `Component.forceUpdate()`: set `dirty` and schedule when mounted. -/
def Component.forceUpdate (s : SchedState) : SchedState :=
  let s := { s with dirty := true }
  if s.mounted then Component.scheduleUpdate s else s

/-- The body of the `process.nextTick` callback queued by
`scheduleUpdate`: run `update()` (and clear `dirty`) only when still dirty
and mounted. -/
def runTickCallback (s : SchedState) : SchedState :=
  if s.dirty ∧ s.mounted then
    { s with updates := s.updates + 1, dirty := false,
             pendingTicks := s.pendingTicks - 1 }
  else { s with pendingTicks := s.pendingTicks - 1 }

/-- Run `n` queued next-tick callbacks in order. -/
def runTicks : Nat → SchedState → SchedState
  | 0, s => s
  | n + 1, s => runTicks n (runTickCallback s)

/-- Drain the queue of next-tick callbacks accumulated in the state. -/
def drainTicks (s : SchedState) : SchedState :=
  runTicks s.pendingTicks s

/-- A synchronous call made within one tick. -/
inductive UpdateCall where
  | setStateCall
  | forceUpdateCall
deriving Repr, DecidableEq

/-- Apply one synchronous call. -/
def applyCall (s : SchedState) : UpdateCall → SchedState
  | .setStateCall => Component.setState s
  | .forceUpdateCall => Component.forceUpdate s

/-- Apply a sequence of synchronous calls (all within one tick). -/
def applyCalls (s : SchedState) (cs : List UpdateCall) : SchedState :=
  cs.foldl applyCall s

/-- `FerroHost.scheduleRender` applied `n` times in a row. -/
def iterateScheduleRender : Nat → HostState → HostState
  | 0, st => st
  | n + 1, st => iterateScheduleRender n (FerroHost.scheduleRender st)

theorem applyCall_mounted (s : SchedState) (c : UpdateCall) (h : s.mounted = true) :
    applyCall s c = { s with dirty := true, pendingTicks := s.pendingTicks + 1 } := by
  cases c <;>
    simp [applyCall, Component.setState, Component.forceUpdate, Component.scheduleUpdate, h]

/-- On a mounted component, n synchronous calls set `dirty`, queue n
callbacks, and perform no update pass. -/
theorem applyCalls_mounted (cs : List UpdateCall) (s : SchedState) (h : s.mounted = true) :
    (applyCalls s cs).mounted = true ∧
    (applyCalls s cs).updates = s.updates ∧
    (applyCalls s cs).pendingTicks = s.pendingTicks + cs.length ∧
    (s.dirty = true → (applyCalls s cs).dirty = true) ∧
    (cs ≠ [] → (applyCalls s cs).dirty = true) := by
  induction cs generalizing s with
  | nil =>
    exact ⟨h, rfl, by simp [applyCalls], fun hd => hd, fun hne => absurd rfl hne⟩
  | cons c rest ih =>
    have hc := applyCall_mounted s c h
    have step : applyCalls s (c :: rest) = applyCalls (applyCall s c) rest := rfl
    have hm' : (applyCall s c).mounted = true := by rw [hc]; exact h
    obtain ⟨i1, i2, i3, i4, _⟩ := ih (applyCall s c) hm'
    have hdirty : (applyCall s c).dirty = true := by rw [hc]
    have hticks : (applyCall s c).pendingTicks = s.pendingTicks + 1 := by rw [hc]
    have hupd : (applyCall s c).updates = s.updates := by rw [hc]
    rw [step]
    refine ⟨i1, by rw [i2, hupd], by rw [i3, hticks]; simp [List.length_cons]; omega, ?_, ?_⟩
    · intro _; exact i4 hdirty
    · intro _; exact i4 hdirty

/-- Ticks run on a clean (not dirty) component perform no update. -/
theorem runTicks_clean (n : Nat) (s : SchedState) (h : s.dirty = false) :
    (runTicks n s).updates = s.updates := by
  induction n generalizing s with
  | zero => rfl
  | succ n ih =>
    have hcb : runTickCallback s = { s with pendingTicks := s.pendingTicks - 1 } := by
      simp [runTickCallback, h]
    show (runTicks n (runTickCallback s)).updates = s.updates
    rw [hcb]
    exact ih { s with pendingTicks := s.pendingTicks - 1 } h

/-- Running at least one tick on a dirty mounted component performs exactly
one update pass. -/
theorem runTicks_dirty_once (n : Nat) (s : SchedState)
    (hd : s.dirty = true) (hm : s.mounted = true) :
    (runTicks (n + 1) s).updates = s.updates + 1 := by
  have hcb : runTickCallback s =
      { s with updates := s.updates + 1, dirty := false,
               pendingTicks := s.pendingTicks - 1 } := by
    simp [runTickCallback, hd, hm]
  show (runTicks n (runTickCallback s)).updates = s.updates + 1
  rw [hcb, runTicks_clean n _ rfl]

end FerroFrame

/-- **C7.**  On a mounted component with no pending scheduled work, any
nonempty sequence of synchronous `setState`/`forceUpdate` calls performs no
update pass during the calls themselves, and draining the queued next-tick
callbacks afterwards executes exactly one update pass (the first callback
finds the instance dirty and renders; the rest find it clean and skip).
Likewise, repeated `FerroHost.scheduleRender` calls on a running host with
no pending render enqueue exactly one render task. -/
theorem C7_setState_coalescing (cs : List FerroFrame.UpdateCall)
    (s : FerroFrame.SchedState) (hcs : cs ≠ []) (hm : s.mounted = true)
    (_hd : s.dirty = false) (hp : s.pendingTicks = 0) :
    (FerroFrame.applyCalls s cs).updates = s.updates ∧
    (FerroFrame.drainTicks (FerroFrame.applyCalls s cs)).updates = s.updates + 1 ∧
    ∀ (hs : FerroFrame.HostState) (n : Nat), hs.isRunning = true → hs.isDirty = false →
      (FerroFrame.iterateScheduleRender (n + 1) hs).pendingRenders = hs.pendingRenders + 1 := by
  obtain ⟨hm', hu, hpt, _, hdirty⟩ := FerroFrame.applyCalls_mounted cs s hm
  refine ⟨hu, ?_, ?_⟩
  · unfold FerroFrame.drainTicks
    rw [hpt, hp]
    obtain ⟨c, rest, rfl⟩ := List.exists_cons_of_ne_nil hcs
    have hlen : (0 : Nat) + (c :: rest).length = rest.length + 1 := by simp
    rw [hlen, FerroFrame.runTicks_dirty_once _ _ (hdirty hcs) hm', hu]
  · intro hs n hr hd'
    have h1 : FerroFrame.FerroHost.scheduleRender hs =
        { hs with isDirty := true, pendingRenders := hs.pendingRenders + 1 } := by
      simp [FerroFrame.FerroHost.scheduleRender, hr, hd']
    have h2 : ∀ (m : Nat) (st : FerroFrame.HostState), st.isDirty = true →
        FerroFrame.iterateScheduleRender m st = st := by
      intro m
      induction m with
      | zero => intro st _; rfl
      | succ m ih =>
        intro st hst
        show FerroFrame.iterateScheduleRender m (FerroFrame.FerroHost.scheduleRender st) = st
        have : FerroFrame.FerroHost.scheduleRender st = st := by
          simp [FerroFrame.FerroHost.scheduleRender, hst]
        rw [this, ih st hst]
    show (FerroFrame.iterateScheduleRender n (FerroFrame.FerroHost.scheduleRender hs)).pendingRenders
        = hs.pendingRenders + 1
    rw [h1, h2 n _ rfl]

/-- **C7, witness**: three synchronous `setState` calls on a mounted, clean
component — exactly one update pass runs when the tick queue drains. -/
theorem C7_setState_coalescing_witness :
    ([FerroFrame.UpdateCall.setStateCall, FerroFrame.UpdateCall.setStateCall,
      FerroFrame.UpdateCall.setStateCall] ≠ ([] : List FerroFrame.UpdateCall)) ∧
    (FerroFrame.drainTicks (FerroFrame.applyCalls ⟨false, true, 0, 0⟩
      [FerroFrame.UpdateCall.setStateCall, FerroFrame.UpdateCall.setStateCall,
       FerroFrame.UpdateCall.setStateCall])).updates = 0 + 1 := by
  refine ⟨by decide, (C7_setState_coalescing _ ⟨false, true, 0, 0⟩
    (by decide) rfl rfl rfl).2.1⟩

namespace FerroFrame

/-! ## LayoutNode tree structure (src LayoutNode.appendChild / removeChild)

`appendChild(child)` first removes the child from its current parent (if
any), then pushes it onto this node's `children` and sets the back
reference; `removeChild(child)` splices out the first occurrence and nulls
the back reference.  The object graph is modelled as an arena: nodes are
identified by numbers, with the `parent` back references and `children`
arrays as two maps. -/

/-- The layout-tree object graph: each node's `parent` reference and
`children` array. -/
structure NodeStore where
  parent : Nat → Option Nat
  children : Nat → List Nat

/-- `LayoutNode.removeChild(child)` on node `p`: splice out the first
occurrence when present (`indexOf`/`splice`), null the back reference;
otherwise do nothing. -/
def LayoutNode.removeChild (st : NodeStore) (p c : Nat) : NodeStore :=
  if c ∈ st.children p then
    { parent := fun n => if n = c then none else st.parent n,
      children := fun n => if n = p then (st.children p).erase c else st.children n }
  else st

/-- The `if (child.parent) child.parent.removeChild(child)` prologue of
`appendChild`. -/
def LayoutNode.detach (st : NodeStore) (c : Nat) : NodeStore :=
  match st.parent c with
  | some q => LayoutNode.removeChild st q c
  | none => st

/-- `LayoutNode.appendChild(child)` on node `p`: detach from any previous
parent, push onto `p`'s children, set the back reference. -/
def LayoutNode.appendChild (st : NodeStore) (p c : Nat) : NodeStore :=
  let st1 := LayoutNode.detach st c
  { parent := fun n => if n = c then some p else st1.parent n,
    children := fun n => if n = p then st1.children n ++ [c] else st1.children n }

/-- The layout tree's structural invariant: every child array entry points
back to that parent, and no child array contains duplicates.  (With
`parent` a function, this makes each node a member of at most one
children array.) -/
def WellFormedStore (st : NodeStore) : Prop :=
  (∀ p c, c ∈ st.children p → st.parent c = some p) ∧
  (∀ p, (st.children p).Nodup)

theorem removeChild_wf (st : NodeStore) (p c : Nat) (h : WellFormedStore st) :
    WellFormedStore (LayoutNode.removeChild st p c) := by
  obtain ⟨hpar, hnd⟩ := h
  unfold LayoutNode.removeChild
  by_cases hmem : c ∈ st.children p
  · simp only [hmem, if_true]
    constructor
    · intro q d hd
      by_cases hq : q = p
      · subst hq
        simp only [if_true] at hd
        have hd' := ((hnd q).mem_erase_iff).mp hd
        have hne : d ≠ c := hd'.1
        simp only [hne, if_false]
        exact hpar q d hd'.2
      · simp only [hq, if_false] at hd
        have hne : d ≠ c := by
          intro hdc
          subst hdc
          have h1 := hpar q d hd
          have h2 := hpar p d hmem
          rw [h1] at h2
          exact hq (Option.some.injEq _ _ ▸ h2.symm ▸ rfl)
        simp only [hne, if_false]
        exact hpar q d hd
    · intro q
      by_cases hq : q = p
      · subst hq; simp only [if_true]; exact (hnd q).erase c
      · simp only [hq, if_false]; exact hnd q
  · simp only [hmem, if_false]
    exact ⟨hpar, hnd⟩

theorem detach_wf (st : NodeStore) (c : Nat) (h : WellFormedStore st) :
    WellFormedStore (LayoutNode.detach st c) := by
  unfold LayoutNode.detach
  cases st.parent c with
  | none => exact h
  | some q => exact removeChild_wf st q c h

/-- After the detach prologue, the child sits in nobody's children array. -/
theorem detach_not_mem (st : NodeStore) (c : Nat) (h : WellFormedStore st) :
    ∀ n, c ∉ (LayoutNode.detach st c).children n := by
  obtain ⟨hpar, hnd⟩ := h
  intro n
  unfold LayoutNode.detach
  cases hp : st.parent c with
  | none =>
    intro hmem
    rw [hpar n c hmem] at hp
    exact Option.noConfusion hp
  | some q =>
    unfold LayoutNode.removeChild
    by_cases hmem : c ∈ st.children q
    · simp only [hmem, if_true]
      by_cases hn : n = q
      · subst hn
        simp only [if_true]
        intro hin
        exact (((hnd n).mem_erase_iff).mp hin).1 rfl
      · simp only [hn, if_false]
        intro hin
        have := hpar n c hin
        rw [this] at hp
        exact hn (Option.some.injEq _ _ ▸ hp ▸ rfl)
    · simp only [hmem, if_false]
      intro hin
      have := hpar n c hin
      rw [this] at hp
      have : n = q := by injection hp
      exact hmem (this ▸ hin)

end FerroFrame

/-- **C10.**  On a well-formed layout tree, `appendChild(p, c)` leaves `c`
with parent `p` and exactly one occurrence in `p`'s children; `c` appears
in no other node's children; the single-parent invariant is preserved; and
`removeChild` always resets the removed child's parent reference to null. -/
theorem C10_single_parent_invariant (st : FerroFrame.NodeStore) (p c : Nat)
    (h : FerroFrame.WellFormedStore st) :
    (FerroFrame.LayoutNode.appendChild st p c).parent c = some p ∧
    ((FerroFrame.LayoutNode.appendChild st p c).children p).count c = 1 ∧
    (∀ q, q ≠ p → c ∉ (FerroFrame.LayoutNode.appendChild st p c).children q) ∧
    FerroFrame.WellFormedStore (FerroFrame.LayoutNode.appendChild st p c) ∧
    (∀ (st₂ : FerroFrame.NodeStore) (p₂ c₂ : Nat), c₂ ∈ st₂.children p₂ →
      (FerroFrame.LayoutNode.removeChild st₂ p₂ c₂).parent c₂ = none) := by
  have hwf1 := FerroFrame.detach_wf st c h
  have hnm := FerroFrame.detach_not_mem st c h
  obtain ⟨hpar1, hnd1⟩ := hwf1
  refine ⟨by simp [FerroFrame.LayoutNode.appendChild], ?_, ?_, ⟨?_, ?_⟩, ?_⟩
  · have happ : (FerroFrame.LayoutNode.appendChild st p c).children p =
        (FerroFrame.LayoutNode.detach st c).children p ++ [c] := by
      simp [FerroFrame.LayoutNode.appendChild]
    rw [happ, List.count_append, List.count_eq_zero_of_not_mem (hnm p)]
    simp
  · intro q hq
    show c ∉ (if q = p then _ else (FerroFrame.LayoutNode.detach st c).children q)
    simp only [hq, if_false]
    exact hnm q
  · intro q d hd
    by_cases hq : q = p
    · subst hq
      simp only [FerroFrame.LayoutNode.appendChild, if_pos rfl] at hd
      rcases List.mem_append.mp hd with hd1 | hd2
      · have hne : d ≠ c := fun hdc => hnm q (hdc ▸ hd1)
        show (if d = c then some q else (FerroFrame.LayoutNode.detach st c).parent d) = some q
        simp only [hne, if_false]
        exact hpar1 q d hd1
      · have : d = c := by simpa using hd2
        subst this
        show (if d = d then some q else _) = some q
        simp
    · simp only [FerroFrame.LayoutNode.appendChild, hq, if_false] at hd
      have hne : d ≠ c := fun hdc => hnm q (hdc ▸ hd)
      show (if d = c then some p else (FerroFrame.LayoutNode.detach st c).parent d) = some q
      simp only [hne, if_false]
      exact hpar1 q d hd
  · intro q
    show List.Nodup (if q = p then ((FerroFrame.LayoutNode.detach st c).children q) ++ [c]
      else (FerroFrame.LayoutNode.detach st c).children q)
    by_cases hq : q = p
    · subst hq
      simp only [if_true]
      rw [List.nodup_append]
      exact ⟨hnd1 q, List.nodup_singleton c,
        fun a ha hac => hnm q ((by simpa using hac) ▸ ha)⟩
    · simp only [hq, if_false]
      exact hnd1 q
  · intro st₂ p₂ c₂ hmem
    simp [FerroFrame.LayoutNode.removeChild, hmem]

/-- **C10, witness**: the theorem applied to the empty arena, appending
node 1 under node 0. -/
theorem C10_single_parent_invariant_witness :
    FerroFrame.WellFormedStore ⟨fun _ => none, fun _ => []⟩ ∧
    (FerroFrame.LayoutNode.appendChild ⟨fun _ => none, fun _ => []⟩ 0 1).parent 1 = some 0 := by
  have hwf : FerroFrame.WellFormedStore ⟨fun _ => none, fun _ => []⟩ := by
    constructor
    · intro p c hc
      simp at hc
    · intro p
      exact List.nodup_nil
  exact ⟨hwf, (C10_single_parent_invariant ⟨fun _ => none, fun _ => []⟩ 0 1 hwf).1⟩

namespace FerroFrame

/-! ## Layout engine (src LayoutNode / Layout)

`Layout.calculate(node, availableWidth, availableHeight)` resolves the
node's own size (`applyConstraints`), then dispatches on `display`:
`none` zeroes the node, `flex` runs `calculateFlexLayout` (first pass of
base sizes, grow/shrink distribution, then `positionFlexItems`, which
recurses into each child), and anything else runs `calculateBlockLayout`
followed by a second recursion over the children with the node's full
size.  The embedding is fuel-indexed: recursion into children consumes
one unit of fuel, and with fuel exceeding the tree height the embedding
performs exactly the source's recursion (fuel 0 leaves a node untouched).
The recursive call is threaded into the loop helpers as the `recur`
parameter so that every function is structurally recursive.

Style fields not read by `calculate` (`margin`, `flexWrap`, `flexBasis`,
`alignSelf`, `alignContent`, `position`, `overflow`) are omitted.
`maxWidth`/`maxHeight` use `none` for the default `Infinity`; the source's
truthiness guards (`style.minWidth`, `style.maxWidth && ... !== Infinity`,
`parentWidth`) become explicit `≠ 0` tests. -/

/-- A width/height style value: `"auto"`, a number, or a percentage
string (stored as the parsed number before division by 100). -/
inductive Dim where
  | auto
  | px (v : ℚ)
  | pct (v : ℚ)
deriving Repr, DecidableEq

/-- `display`. -/
inductive Display where
  | block
  | flex
  | none
deriving Repr, DecidableEq

/-- `flexDirection`: `isRow = (flexDirection === 'row')`, anything else
takes the column branches. -/
inductive FlexDirection where
  | row
  | column
deriving Repr, DecidableEq

/-- `justifyContent` (unknown values behave as the switch default,
flex-start). -/
inductive JustifyContent where
  | flexStart
  | flexEnd
  | center
  | spaceBetween
  | spaceAround
  | spaceEvenly
deriving Repr, DecidableEq

/-- `alignItems` (unknown values behave as the switch default,
flex-start). -/
inductive AlignItems where
  | flexStart
  | flexEnd
  | center
  | stretch
deriving Repr, DecidableEq

/-- `padding`: a scalar or a per-edge object (missing edges default 0 in
`normalizePadding`). -/
inductive PadVal where
  | num (v : ℚ)
  | edges (top right bottom left : ℚ)
deriving Repr, DecidableEq

/-- The style record fields `Layout.calculate` reads, with the constructor
defaults of `LayoutNode`. -/
structure Style where
  display : Display := Display.block
  width : Dim := Dim.auto
  height : Dim := Dim.auto
  minWidth : ℚ := 0
  minHeight : ℚ := 0
  maxWidth : Option ℚ := none
  maxHeight : Option ℚ := none
  padding : PadVal := PadVal.num 0
  flexDirection : FlexDirection := FlexDirection.row
  justifyContent : JustifyContent := JustifyContent.flexStart
  alignItems : AlignItems := AlignItems.stretch
  gap : ℚ := 0
  flexGrow : ℚ := 0
  flexShrink : ℚ := 1
deriving Repr, DecidableEq

/-- A layout node: style, computed position and size, children. -/
inductive LNode where
  | node (style : Style) (x y width height : ℚ) (children : List LNode)

/-- The `style` field. -/
def LNode.style : LNode → Style
  | .node s _ _ _ _ _ => s

/-- The computed `x`. -/
def LNode.x : LNode → ℚ
  | .node _ x _ _ _ _ => x

/-- The computed `y`. -/
def LNode.y : LNode → ℚ
  | .node _ _ y _ _ _ => y

/-- The computed `width`. -/
def LNode.width : LNode → ℚ
  | .node _ _ _ w _ _ => w

/-- The computed `height`. -/
def LNode.height : LNode → ℚ
  | .node _ _ _ _ h _ => h

/-- The `children` list. -/
def LNode.children : LNode → List LNode
  | .node _ _ _ _ _ cs => cs

/-- Assign `node.x`. -/
def LNode.setX : LNode → ℚ → LNode
  | .node s _ y w h cs, v => .node s v y w h cs

/-- Assign `node.y`. -/
def LNode.setY : LNode → ℚ → LNode
  | .node s x _ w h cs, v => .node s x v w h cs

/-- Assign `node.width`. -/
def LNode.setWidth : LNode → ℚ → LNode
  | .node s x y _ h cs, v => .node s x y v h cs

/-- Assign `node.height`. -/
def LNode.setHeight : LNode → ℚ → LNode
  | .node s x y w _ cs, v => .node s x y w v cs

/-- Assign both dimensions. -/
def LNode.setSize : LNode → ℚ → ℚ → LNode
  | .node s x y _ _ cs, w, h => .node s x y w h cs

/-- Replace the children list. -/
def LNode.withChildren : LNode → List LNode → LNode
  | .node s x y w h _, cs => .node s x y w h cs

/-- The `LayoutNode` constructor: position 0, dimensions taken from the
style when they are numeric literals, no children. -/
def LayoutNode.ofStyle (s : Style) : LNode :=
  LNode.node s 0 0
    (match s.width with | Dim.px v => v | _ => 0)
    (match s.height with | Dim.px v => v | _ => 0)
    []

/-- `Layout.normalizePadding`: scalar becomes all four edges. -/
def normalizePadding : PadVal → ℚ × ℚ × ℚ × ℚ
  | .num v => (v, v, v, v)
  | .edges t r b l => (t, r, b, l)

/-- `Layout.getContentBox`: inner origin and dimensions after padding,
clamped at 0. -/
def getContentBox (nd : LNode) : ℚ × ℚ × ℚ × ℚ :=
  let (t, r, b, l) := normalizePadding nd.style.padding
  (l, t, max 0 (nd.width - l - r), max 0 (nd.height - t - b))

/-- Resolution of one dimension in `applyConstraints`: a percentage
resolves against a truthy (non-zero) parent size, a numeric literal is
absolute, `auto` keeps the current computed value. -/
def resolveDim (d : Dim) (current parent : ℚ) : ℚ :=
  match d with
  | Dim.pct p => if parent ≠ 0 then parent * (p / 100) else current
  | Dim.px v => v
  | Dim.auto => current

/-- The truthiness-guarded min/max clamp chain of `applyConstraints`:
`if (min) size = max(size, min); if (max && max !== Infinity) size =
min(size, max)`. -/
def clampVal (v mn : ℚ) (mx : Option ℚ) : ℚ :=
  let v := if mn ≠ 0 then max v mn else v
  match mx with
  | some m => if m ≠ 0 then min v m else v
  | Option.none => v

/-- `Layout.applyConstraints(node, parentWidth, parentHeight)`: resolve
percentage/numeric style sizes, then apply the truthiness-guarded min/max
clamps. -/
def applyConstraints (nd : LNode) (parentWidth parentHeight : ℚ) : LNode :=
  let s := nd.style
  nd.setSize
    (clampVal (resolveDim s.width nd.width parentWidth) s.minWidth s.maxWidth)
    (clampVal (resolveDim s.height nd.height parentHeight) s.minHeight s.maxHeight)

/-- The first pass's unconditional percentage-width re-resolution
(`if (typeof child.style.width === 'string' && ...endsWith('%'))`). -/
def pctWidthFix (contentW : ℚ) (child : LNode) : LNode :=
  match child.style.width with
  | Dim.pct p => child.setWidth (contentW * (p / 100))
  | _ => child

/-- The first pass's unconditional percentage-height re-resolution. -/
def pctHeightFix (contentH : ℚ) (child : LNode) : LNode :=
  match child.style.height with
  | Dim.pct p => child.setHeight (contentH * (p / 100))
  | _ => child

/-- First pass of `calculateFlexLayout` over one child: apply constraints
against the content box, then (unconditionally) re-resolve percentage
sizes against the content box. -/
def flexFirstPassChild (contentW contentH : ℚ) (child : LNode) : LNode :=
  pctHeightFix contentH (pctWidthFix contentW (applyConstraints child contentW contentH))

/-- `isRow ? child.width : child.height`. -/
def mainAxisSize (isRow : Bool) (c : LNode) : ℚ :=
  if isRow then c.width else c.height

/-- `child.style.flexShrink || 1`: a zero shrink factor is falsy and is
read as 1. -/
def shrinkFactor (c : LNode) : ℚ :=
  if c.style.flexShrink = 0 then 1 else c.style.flexShrink

/-- `totalMainSize` of the first pass: child main sizes plus
`gap * (n - 1)` when there is more than one child. -/
def totalMainSizeOf (isRow : Bool) (gap : ℚ) (cs : List LNode) : ℚ :=
  (cs.map (mainAxisSize isRow)).sum +
    (if cs.length > 1 then gap * ((cs.length : ℚ) - 1) else 0)

/-- Grow one child: `size += spacePerGrow * flexGrow` when its grow factor
is positive. -/
def flexGrowChild (isRow : Bool) (spacePerGrow : ℚ) (c : LNode) : LNode :=
  let g := c.style.flexGrow
  if g > 0 then
    if isRow then c.setWidth (c.width + spacePerGrow * g)
    else c.setHeight (c.height + spacePerGrow * g)
  else c

/-- Shrink one child: `size = max(0, size + spacePerShrink * factor)`
(`spacePerShrink` is negative). -/
def flexShrinkChild (isRow : Bool) (spacePerShrink : ℚ) (c : LNode) : LNode :=
  let f := shrinkFactor c
  if f > 0 then
    if isRow then c.setWidth (max 0 (c.width + spacePerShrink * f))
    else c.setHeight (max 0 (c.height + spacePerShrink * f))
  else c

/-- Second pass of `calculateFlexLayout` (lines distributing
`remainingSpace`): grow on positive remaining space, shrink on negative,
otherwise leave the children as resolved. -/
def distributeRemainingSpace (isRow : Bool)
    (remainingSpace totalGrowFactor totalShrinkFactor : ℚ)
    (cs : List LNode) : List LNode :=
  if remainingSpace > 0 ∧ totalGrowFactor > 0 then
    cs.map (flexGrowChild isRow (remainingSpace / totalGrowFactor))
  else if remainingSpace < 0 ∧ totalShrinkFactor > 0 then
    cs.map (flexShrinkChild isRow (remainingSpace / totalShrinkFactor))
  else cs

/-- The `justifyContent` switch of `positionFlexItems`: the offset added to
the starting main position and the extra spacing inserted after each
child. -/
def justifyOffsets (j : JustifyContent) (remainingSpace : ℚ) (n : Nat) : ℚ × ℚ :=
  match j with
  | .center => (remainingSpace / 2, 0)
  | .flexEnd => (remainingSpace, 0)
  | .spaceBetween => (0, if n > 1 then remainingSpace / ((n : ℚ) - 1) else 0)
  | .spaceAround => ((remainingSpace / (n : ℚ)) / 2, remainingSpace / (n : ℚ))
  | .spaceEvenly => (remainingSpace / ((n : ℚ) + 1), remainingSpace / ((n : ℚ) + 1))
  | .flexStart => (0, 0)

/-- The `alignItems` switch of `positionFlexItems` for one child.  The
source computes `crossPos` from `contentBox.y` for both axes. -/
def alignCross (isRow : Bool) (alignItems : AlignItems) (crossSize crossPos : ℚ)
    (c : LNode) : LNode :=
  let childCrossSize := if isRow then c.height else c.width
  match alignItems with
  | .center =>
    if isRow then c.setY (crossPos + (crossSize - childCrossSize) / 2)
    else c.setX (crossPos + (crossSize - childCrossSize) / 2)
  | .flexEnd =>
    if isRow then c.setY (crossPos + crossSize - childCrossSize)
    else c.setX (crossPos + crossSize - childCrossSize)
  | .stretch =>
    let c :=
      if isRow ∧ c.style.height = Dim.auto then c.setHeight crossSize
      else if (¬ isRow) ∧ c.style.width = Dim.auto then c.setWidth crossSize
      else c
    if isRow then c.setY crossPos else c.setX crossPos
  | .flexStart => if isRow then c.setY crossPos else c.setX crossPos

/-- Processing of one child in `positionFlexItems`: set the main-axis
position, align on the cross axis, then recurse into the child with its
own size as the available space. -/
def posStep (recur : LNode → Option ℚ → Option ℚ → LNode) (isRow : Bool)
    (alignItems : AlignItems) (crossSize crossPos mainPos : ℚ) (c : LNode) : LNode :=
  let c := if isRow then c.setX mainPos else c.setY mainPos
  let c := alignCross isRow alignItems crossSize crossPos c
  recur c (some c.width) (some c.height)

/-- The per-child loop of `positionFlexItems`.  `mainPos` advances by the
child's main size plus `gap + spacing`; the source reads the size after
assigning the main position, which leaves it unchanged, so the advance
uses the incoming child. -/
def positionLoop (recur : LNode → Option ℚ → Option ℚ → LNode) (isRow : Bool)
    (gap spacing crossSize crossPos : ℚ) (alignItems : AlignItems) :
    ℚ → List LNode → List LNode
  | _, [] => []
  | mainPos, c :: rest =>
    posStep recur isRow alignItems crossSize crossPos mainPos c ::
      positionLoop recur isRow gap spacing crossSize crossPos alignItems
        (mainPos + (if isRow then c.width else c.height) + gap + spacing) rest

/-- `Layout.calculateFlexLayout` plus `Layout.positionFlexItems`, with the
recursive `calculate` call abstracted as `recur`. -/
def calculateFlexLayoutF (recur : LNode → Option ℚ → Option ℚ → LNode)
    (nd : LNode) : LNode :=
  let isRow := nd.style.flexDirection = FlexDirection.row
  let gap := nd.style.gap
  let (cbx, cby, cbw, cbh) := getContentBox nd
  let mainSize := if isRow then cbw else cbh
  let cs1 := nd.children.map (flexFirstPassChild cbw cbh)
  let totalMainSize := totalMainSizeOf isRow gap cs1
  let totalGrowFactor := (cs1.map (fun c => c.style.flexGrow)).sum
  let totalShrinkFactor := (cs1.map shrinkFactor).sum
  let remainingSpace := mainSize - totalMainSize
  let cs2 := distributeRemainingSpace isRow remainingSpace totalGrowFactor totalShrinkFactor cs1
  let totalMainSize2 := (cs2.map (mainAxisSize isRow)).sum + gap * ((cs2.length - 1 : ℕ) : ℚ)
  let remainingSpace2 := mainSize - totalMainSize2
  let (startOffset, spacing) := justifyOffsets nd.style.justifyContent remainingSpace2 cs2.length
  let crossSize := if isRow then cbh else cbw
  nd.withChildren
    (positionLoop recur isRow gap spacing crossSize cby nd.style.alignItems (cbx + startOffset) cs2)

/-- The per-child loop of `calculateBlockLayout`: stack children at
`(0, currentY)`, give each the node's width and remaining height, advance
by the child's computed height. -/
def blockLoop (recur : LNode → Option ℚ → Option ℚ → LNode) (w h : ℚ) :
    ℚ → List LNode → List LNode
  | _, [] => []
  | currentY, c :: rest =>
    let c := (c.setX 0).setY currentY
    let c := recur c (some w) (some (h - currentY))
    c :: blockLoop recur w h (currentY + c.height) rest

/-- `Layout.calculateBlockLayout` with the recursive call abstracted. -/
def calculateBlockLayoutF (recur : LNode → Option ℚ → Option ℚ → LNode)
    (nd : LNode) : LNode :=
  nd.withChildren (blockLoop recur nd.width nd.height 0 nd.children)

/-- `Layout.calculate(node, availableWidth, availableHeight)`.  Fuel bounds
the recursion depth; with fuel larger than the tree height this is the
source's algorithm (each recursion into a child consumes one unit).
For `block` nodes the source runs `calculateBlockLayout` and then, because
`display !== 'flex'`, recalculates every child a second time with the
node's full size — both passes are performed here. -/
def Layout.calculate : Nat → LNode → Option ℚ → Option ℚ → LNode
  | 0, nd, _, _ => nd
  | fuel + 1, nd, availableWidth, availableHeight =>
    let containerWidth := availableWidth.getD nd.width
    let containerHeight := availableHeight.getD nd.height
    let nd := applyConstraints nd containerWidth containerHeight
    if nd.style.display = Display.none then nd.setSize 0 0
    else if nd.style.display = Display.flex then
      calculateFlexLayoutF (Layout.calculate fuel) nd
    else
      let nd := calculateBlockLayoutF (Layout.calculate fuel) nd
      nd.withChildren
        (nd.children.map (fun c => Layout.calculate fuel c (some nd.width) (some nd.height)))

end FerroFrame

namespace FerroFrame

@[simp] theorem LNode.setX_style (nd : LNode) (v : ℚ) : (nd.setX v).style = nd.style := by cases nd; rfl

@[simp] theorem LNode.setX_x (nd : LNode) (v : ℚ) : (nd.setX v).x = v := by cases nd; rfl

@[simp] theorem LNode.setX_y (nd : LNode) (v : ℚ) : (nd.setX v).y = nd.y := by cases nd; rfl

@[simp] theorem LNode.setX_width (nd : LNode) (v : ℚ) : (nd.setX v).width = nd.width := by cases nd; rfl

@[simp] theorem LNode.setX_height (nd : LNode) (v : ℚ) : (nd.setX v).height = nd.height := by cases nd; rfl

@[simp] theorem LNode.setX_children (nd : LNode) (v : ℚ) : (nd.setX v).children = nd.children := by cases nd; rfl

@[simp] theorem LNode.setY_style (nd : LNode) (v : ℚ) : (nd.setY v).style = nd.style := by cases nd; rfl

@[simp] theorem LNode.setY_x (nd : LNode) (v : ℚ) : (nd.setY v).x = nd.x := by cases nd; rfl

@[simp] theorem LNode.setY_y (nd : LNode) (v : ℚ) : (nd.setY v).y = v := by cases nd; rfl

@[simp] theorem LNode.setY_width (nd : LNode) (v : ℚ) : (nd.setY v).width = nd.width := by cases nd; rfl

@[simp] theorem LNode.setY_height (nd : LNode) (v : ℚ) : (nd.setY v).height = nd.height := by cases nd; rfl

@[simp] theorem LNode.setY_children (nd : LNode) (v : ℚ) : (nd.setY v).children = nd.children := by cases nd; rfl

@[simp] theorem LNode.setWidth_style (nd : LNode) (v : ℚ) : (nd.setWidth v).style = nd.style := by cases nd; rfl

@[simp] theorem LNode.setWidth_x (nd : LNode) (v : ℚ) : (nd.setWidth v).x = nd.x := by cases nd; rfl

@[simp] theorem LNode.setWidth_y (nd : LNode) (v : ℚ) : (nd.setWidth v).y = nd.y := by cases nd; rfl

@[simp] theorem LNode.setWidth_width (nd : LNode) (v : ℚ) : (nd.setWidth v).width = v := by cases nd; rfl

@[simp] theorem LNode.setWidth_height (nd : LNode) (v : ℚ) : (nd.setWidth v).height = nd.height := by cases nd; rfl

@[simp] theorem LNode.setWidth_children (nd : LNode) (v : ℚ) : (nd.setWidth v).children = nd.children := by cases nd; rfl

@[simp] theorem LNode.setHeight_style (nd : LNode) (v : ℚ) : (nd.setHeight v).style = nd.style := by cases nd; rfl

@[simp] theorem LNode.setHeight_x (nd : LNode) (v : ℚ) : (nd.setHeight v).x = nd.x := by cases nd; rfl

@[simp] theorem LNode.setHeight_y (nd : LNode) (v : ℚ) : (nd.setHeight v).y = nd.y := by cases nd; rfl

@[simp] theorem LNode.setHeight_width (nd : LNode) (v : ℚ) : (nd.setHeight v).width = nd.width := by cases nd; rfl

@[simp] theorem LNode.setHeight_height (nd : LNode) (v : ℚ) : (nd.setHeight v).height = v := by cases nd; rfl

@[simp] theorem LNode.setHeight_children (nd : LNode) (v : ℚ) : (nd.setHeight v).children = nd.children := by cases nd; rfl

@[simp] theorem LNode.setSize_style (nd : LNode) (w h : ℚ) : (nd.setSize w h).style = nd.style := by cases nd; rfl

@[simp] theorem LNode.setSize_x (nd : LNode) (w h : ℚ) : (nd.setSize w h).x = nd.x := by cases nd; rfl

@[simp] theorem LNode.setSize_y (nd : LNode) (w h : ℚ) : (nd.setSize w h).y = nd.y := by cases nd; rfl

@[simp] theorem LNode.setSize_width (nd : LNode) (w h : ℚ) : (nd.setSize w h).width = w := by cases nd; rfl

@[simp] theorem LNode.setSize_height (nd : LNode) (w h : ℚ) : (nd.setSize w h).height = h := by cases nd; rfl

@[simp] theorem LNode.setSize_children (nd : LNode) (w h : ℚ) : (nd.setSize w h).children = nd.children := by cases nd; rfl

@[simp] theorem LNode.withChildren_style (nd : LNode) (cs : List LNode) : (nd.withChildren cs).style = nd.style := by cases nd; rfl

@[simp] theorem LNode.withChildren_x (nd : LNode) (cs : List LNode) : (nd.withChildren cs).x = nd.x := by cases nd; rfl

@[simp] theorem LNode.withChildren_y (nd : LNode) (cs : List LNode) : (nd.withChildren cs).y = nd.y := by cases nd; rfl

@[simp] theorem LNode.withChildren_width (nd : LNode) (cs : List LNode) : (nd.withChildren cs).width = nd.width := by cases nd; rfl

@[simp] theorem LNode.withChildren_height (nd : LNode) (cs : List LNode) : (nd.withChildren cs).height = nd.height := by cases nd; rfl

@[simp] theorem LNode.withChildren_children (nd : LNode) (cs : List LNode) : (nd.withChildren cs).children = cs := by cases nd; rfl

@[simp] theorem applyConstraints_style (nd : LNode) (pw ph : ℚ) : (applyConstraints nd pw ph).style = nd.style := by cases nd; rfl

@[simp] theorem applyConstraints_x (nd : LNode) (pw ph : ℚ) : (applyConstraints nd pw ph).x = nd.x := by cases nd; rfl

@[simp] theorem applyConstraints_y (nd : LNode) (pw ph : ℚ) : (applyConstraints nd pw ph).y = nd.y := by cases nd; rfl

@[simp] theorem applyConstraints_children (nd : LNode) (pw ph : ℚ) : (applyConstraints nd pw ph).children = nd.children := by cases nd; rfl

theorem applyConstraints_width (nd : LNode) (pw ph : ℚ) :
    (applyConstraints nd pw ph).width =
      clampVal (resolveDim nd.style.width nd.width pw) nd.style.minWidth nd.style.maxWidth := by
  cases nd; rfl

theorem applyConstraints_height (nd : LNode) (pw ph : ℚ) :
    (applyConstraints nd pw ph).height =
      clampVal (resolveDim nd.style.height nd.height ph) nd.style.minHeight nd.style.maxHeight := by
  cases nd; rfl

theorem pctWidthFix_style (cw : ℚ) (c : LNode) : (pctWidthFix cw c).style = c.style := by
  unfold pctWidthFix
  rcases h : c.style.width <;> simp [h]

theorem pctHeightFix_style (chh : ℚ) (c : LNode) : (pctHeightFix chh c).style = c.style := by
  unfold pctHeightFix
  rcases h : c.style.height <;> simp [h]

/-- `flexFirstPassChild` only resizes: the style record is untouched. -/
theorem flexFirstPassChild_style (cw chh : ℚ) (c : LNode) :
    (flexFirstPassChild cw chh c).style = c.style := by
  unfold flexFirstPassChild
  rw [pctHeightFix_style, pctWidthFix_style, applyConstraints_style]

theorem flexGrowChild_style (isRow : Bool) (sp : ℚ) (c : LNode) :
    (flexGrowChild isRow sp c).style = c.style := by
  cases c
  simp only [flexGrowChild]
  split_ifs <;> rfl

theorem flexShrinkChild_style (isRow : Bool) (sp : ℚ) (c : LNode) :
    (flexShrinkChild isRow sp c).style = c.style := by
  cases c
  simp only [flexShrinkChild]
  split_ifs <;> rfl

theorem alignCross_style (isRow : Bool) (al : AlignItems) (cS cP : ℚ) (c : LNode) :
    (alignCross isRow al cS cP c).style = c.style := by
  cases c
  rcases al <;> cases isRow <;> simp only [alignCross] <;> split_ifs <;> rfl

theorem alignCross_width_row (al : AlignItems) (cS cP : ℚ) (c : LNode) :
    (alignCross true al cS cP c).width = c.width := by
  cases c
  rcases al <;> simp only [alignCross] <;> split_ifs <;> first | rfl | simp_all

theorem alignCross_height_col (al : AlignItems) (cS cP : ℚ) (c : LNode) :
    (alignCross false al cS cP c).height = c.height := by
  cases c
  rcases al <;> simp only [alignCross] <;> split_ifs <;> first | rfl | simp_all

end FerroFrame

namespace FerroFrame

theorem calculateFlexLayoutF_style (recur : LNode → Option ℚ → Option ℚ → LNode) (nd : LNode) :
    (calculateFlexLayoutF recur nd).style = nd.style := by cases nd; rfl

theorem calculateFlexLayoutF_x (recur : LNode → Option ℚ → Option ℚ → LNode) (nd : LNode) :
    (calculateFlexLayoutF recur nd).x = nd.x := by cases nd; rfl

theorem calculateFlexLayoutF_y (recur : LNode → Option ℚ → Option ℚ → LNode) (nd : LNode) :
    (calculateFlexLayoutF recur nd).y = nd.y := by cases nd; rfl

theorem calculateFlexLayoutF_width (recur : LNode → Option ℚ → Option ℚ → LNode) (nd : LNode) :
    (calculateFlexLayoutF recur nd).width = nd.width := by cases nd; rfl

theorem calculateFlexLayoutF_height (recur : LNode → Option ℚ → Option ℚ → LNode) (nd : LNode) :
    (calculateFlexLayoutF recur nd).height = nd.height := by cases nd; rfl

theorem calculateBlockLayoutF_style (recur : LNode → Option ℚ → Option ℚ → LNode) (nd : LNode) :
    (calculateBlockLayoutF recur nd).style = nd.style := by cases nd; rfl

theorem calculateBlockLayoutF_x (recur : LNode → Option ℚ → Option ℚ → LNode) (nd : LNode) :
    (calculateBlockLayoutF recur nd).x = nd.x := by cases nd; rfl

theorem calculateBlockLayoutF_y (recur : LNode → Option ℚ → Option ℚ → LNode) (nd : LNode) :
    (calculateBlockLayoutF recur nd).y = nd.y := by cases nd; rfl

theorem calculateBlockLayoutF_width (recur : LNode → Option ℚ → Option ℚ → LNode) (nd : LNode) :
    (calculateBlockLayoutF recur nd).width = nd.width := by cases nd; rfl

theorem calculateBlockLayoutF_height (recur : LNode → Option ℚ → Option ℚ → LNode) (nd : LNode) :
    (calculateBlockLayoutF recur nd).height = nd.height := by cases nd; rfl

/-- `calculate` never changes a node's own style record. -/
theorem calculate_style (f : Nat) (nd : LNode) (aw ah : Option ℚ) :
    (Layout.calculate f nd aw ah).style = nd.style := by
  cases f with
  | zero => rfl
  | succ f =>
    simp only [Layout.calculate]
    split
    · simp
    · split
      · rw [calculateFlexLayoutF_style, applyConstraints_style]
      · rw [LNode.withChildren_style, calculateBlockLayoutF_style, applyConstraints_style]

/-- `calculate` never changes a node's own position (only the parent's
positioning pass does). -/
theorem calculate_x (f : Nat) (nd : LNode) (aw ah : Option ℚ) :
    (Layout.calculate f nd aw ah).x = nd.x := by
  cases f with
  | zero => rfl
  | succ f =>
    simp only [Layout.calculate]
    split
    · simp
    · split
      · rw [calculateFlexLayoutF_x, applyConstraints_x]
      · rw [LNode.withChildren_x, calculateBlockLayoutF_x, applyConstraints_x]

theorem calculate_y (f : Nat) (nd : LNode) (aw ah : Option ℚ) :
    (Layout.calculate f nd aw ah).y = nd.y := by
  cases f with
  | zero => rfl
  | succ f =>
    simp only [Layout.calculate]
    split
    · simp
    · split
      · rw [calculateFlexLayoutF_y, applyConstraints_y]
      · rw [LNode.withChildren_y, calculateBlockLayoutF_y, applyConstraints_y]

/-- For a node whose display is not `none`, one step of `calculate` fixes
the node's own size at the constrained (clamped) value: the flex/block
sub-layout only moves and sizes children. -/
theorem calculate_succ_size (f : Nat) (nd : LNode) (aw ah : Option ℚ)
    (h : nd.style.display ≠ Display.none) :
    (Layout.calculate (f + 1) nd aw ah).width =
      clampVal (resolveDim nd.style.width nd.width (aw.getD nd.width))
        nd.style.minWidth nd.style.maxWidth ∧
    (Layout.calculate (f + 1) nd aw ah).height =
      clampVal (resolveDim nd.style.height nd.height (ah.getD nd.height))
        nd.style.minHeight nd.style.maxHeight := by
  simp only [Layout.calculate]
  have hd : (applyConstraints nd (aw.getD nd.width) (ah.getD nd.height)).style.display
      = nd.style.display := by rw [applyConstraints_style]
  split
  · rename_i hnone
    rw [hd] at hnone
    exact absurd hnone h
  · split
    · rw [calculateFlexLayoutF_width, calculateFlexLayoutF_height,
        applyConstraints_width, applyConstraints_height]
      exact ⟨rfl, rfl⟩
    · rw [LNode.withChildren_width, LNode.withChildren_height,
        calculateBlockLayoutF_width, calculateBlockLayoutF_height,
        applyConstraints_width, applyConstraints_height]
      exact ⟨rfl, rfl⟩

/-- Every element of the positioning loop's output is `posStep` applied at
some main position to some input child. -/
theorem positionLoop_mem (recur : LNode → Option ℚ → Option ℚ → LNode) (isRow : Bool)
    (gap spacing crossSize crossPos : ℚ) (al : AlignItems) :
    ∀ (cs : List LNode) (mp : ℚ) (c' : LNode),
      c' ∈ positionLoop recur isRow gap spacing crossSize crossPos al mp cs →
      ∃ c ∈ cs, ∃ q : ℚ, c' = posStep recur isRow al crossSize crossPos q c := by
  intro cs
  induction cs with
  | nil => intro mp c' h; simp [positionLoop] at h
  | cons c rest ih =>
    intro mp c' h
    rw [positionLoop] at h
    rcases List.mem_cons.mp h with h1 | h2
    · exact ⟨c, List.mem_cons_self c rest, mp, h1⟩
    · obtain ⟨c0, hc0, q, hq⟩ := ih _ c' h2
      exact ⟨c0, List.mem_cons_of_mem c hc0, q, hq⟩

end FerroFrame

namespace FerroFrame

/-- A dimension style value resolves to a non-negative number. -/
def dimNonneg : Dim → Bool
  | .auto => true
  | .px v => decide (0 ≤ v)
  | .pct p => decide (0 ≤ p)

/-- A max constraint is either unset or a positive bound consistent with
the min bound. -/
def maxOk : Option ℚ → ℚ → Bool
  | Option.none, _ => true
  | some m, mn => decide (0 < m) && decide (mn ≤ m)

/-- Well-formedness of a flex child for the clamp-bound property: its
display is not `none`, its numeric style dimensions, current sizes and min
bounds are non-negative, and its max bounds (when set) are positive and at
least the min bounds. -/
def childSane (c : LNode) : Bool :=
  decide (c.style.display ≠ Display.none) &&
  dimNonneg c.style.width && dimNonneg c.style.height &&
  decide (0 ≤ c.width) && decide (0 ≤ c.height) &&
  decide (0 ≤ c.style.minWidth) && decide (0 ≤ c.style.minHeight) &&
  maxOk c.style.maxWidth c.style.minWidth &&
  maxOk c.style.maxHeight c.style.minHeight

/-- The clamp chain emits a value within `[min, max]` whenever the input
and min are non-negative and the max bound is consistent. -/
theorem clampVal_bounds (v mn : ℚ) (mx : Option ℚ) (hv : 0 ≤ v) (_hmn : 0 ≤ mn)
    (hmx : maxOk mx mn = true) :
    mn ≤ clampVal v mn mx ∧ (∀ m, mx = some m → clampVal v mn mx ≤ m) ∧
      0 ≤ clampVal v mn mx := by
  have h1a : mn ≤ (if mn ≠ 0 then max v mn else v) := by
    by_cases h : mn = 0
    · simp [h]
      exact h ▸ hv
    · rw [if_pos h]
      exact le_max_right v mn
  have h1b : 0 ≤ (if mn ≠ 0 then max v mn else v) := by
    by_cases h : mn = 0
    · simp [h]
      exact hv
    · rw [if_pos h]
      exact le_max_of_le_left hv
  cases mx with
  | none =>
    refine ⟨h1a, fun m hm => Option.noConfusion hm, h1b⟩
  | some m =>
    simp only [maxOk, Bool.and_eq_true, decide_eq_true_eq] at hmx
    obtain ⟨hm0, hmnm⟩ := hmx
    have hcv : clampVal v mn (some m) = min (if mn ≠ 0 then max v mn else v) m := by
      show (if m ≠ 0 then min (if mn ≠ 0 then max v mn else v) m
        else (if mn ≠ 0 then max v mn else v)) = min (if mn ≠ 0 then max v mn else v) m
      rw [if_pos (ne_of_gt hm0)]
    rw [hcv]
    refine ⟨le_min h1a hmnm, fun m' hm' => ?_, le_min h1b (le_of_lt hm0)⟩
    cases hm'
    exact min_le_right _ _

/-- Resolving a sane dimension against non-negative sizes stays
non-negative. -/
theorem resolveDim_nonneg (d : Dim) (cur par : ℚ) (hc : 0 ≤ cur) (hp : 0 ≤ par)
    (hd : dimNonneg d = true) : 0 ≤ resolveDim d cur par := by
  cases d with
  | auto => exact hc
  | px v => simpa [resolveDim, dimNonneg] using hd
  | pct p =>
    simp only [dimNonneg, decide_eq_true_eq] at hd
    show 0 ≤ if par ≠ 0 then par * (p / 100) else cur
    by_cases h : par = 0
    · simp only [h, ne_eq, not_true_eq_false, if_false]
      exact hc
    · rw [if_pos h]
      exact mul_nonneg hp (by positivity)

theorem pctWidthFix_height (cw : ℚ) (c : LNode) : (pctWidthFix cw c).height = c.height := by
  unfold pctWidthFix
  rcases h : c.style.width <;> simp [h]

theorem pctHeightFix_width (chh : ℚ) (c : LNode) : (pctHeightFix chh c).width = c.width := by
  unfold pctHeightFix
  rcases h : c.style.height <;> simp [h]

theorem pctWidthFix_width_nonneg (cw : ℚ) (c : LNode) (hcw : 0 ≤ cw)
    (hc : 0 ≤ c.width) (hd : dimNonneg c.style.width = true) :
    0 ≤ (pctWidthFix cw c).width := by
  unfold pctWidthFix
  rcases h : c.style.width with _ | v | p <;> simp [h]
  · exact hc
  · exact hc
  · rw [h] at hd
    simp only [dimNonneg, decide_eq_true_eq] at hd
    exact mul_nonneg hcw (by positivity)

theorem pctHeightFix_height_nonneg (chh : ℚ) (c : LNode) (hch : 0 ≤ chh)
    (hc : 0 ≤ c.height) (hd : dimNonneg c.style.height = true) :
    0 ≤ (pctHeightFix chh c).height := by
  unfold pctHeightFix
  rcases h : c.style.height with _ | v | p <;> simp [h]
  · exact hc
  · exact hc
  · rw [h] at hd
    simp only [dimNonneg, decide_eq_true_eq] at hd
    exact mul_nonneg hch (by positivity)

/-- The flex first pass keeps both sizes non-negative on a sane child. -/
theorem flexFirstPassChild_nonneg (cw chh : ℚ) (c : LNode) (hcw : 0 ≤ cw) (hch : 0 ≤ chh)
    (hs : childSane c = true) :
    0 ≤ (flexFirstPassChild cw chh c).width ∧ 0 ≤ (flexFirstPassChild cw chh c).height := by
  simp only [childSane, Bool.and_eq_true, decide_eq_true_eq] at hs
  obtain ⟨⟨⟨⟨⟨⟨⟨⟨_, hdw⟩, hdh⟩, hw⟩, hh⟩, hmnw⟩, hmnh⟩, hmxw⟩, hmxh⟩ := hs
  have hacw : 0 ≤ (applyConstraints c cw chh).width := by
    rw [applyConstraints_width]
    exact (clampVal_bounds _ _ _ (resolveDim_nonneg _ _ _ hw hcw hdw) hmnw hmxw).2.2
  have hach : 0 ≤ (applyConstraints c cw chh).height := by
    rw [applyConstraints_height]
    exact (clampVal_bounds _ _ _ (resolveDim_nonneg _ _ _ hh hch hdh) hmnh hmxh).2.2
  have hstyW : (applyConstraints c cw chh).style.width = c.style.width := by
    rw [applyConstraints_style]
  have hstyH : (pctWidthFix cw (applyConstraints c cw chh)).style.height = c.style.height := by
    rw [pctWidthFix_style, applyConstraints_style]
  constructor
  · unfold flexFirstPassChild
    rw [pctHeightFix_width]
    exact pctWidthFix_width_nonneg _ _ hcw hacw (hstyW ▸ hdw)
  · unfold flexFirstPassChild
    refine pctHeightFix_height_nonneg _ _ hch ?_ (hstyH ▸ hdh)
    rw [pctWidthFix_height]
    exact hach

theorem flexGrowChild_nonneg (isRow : Bool) (sp : ℚ) (c : LNode) (hsp : 0 ≤ sp)
    (hw : 0 ≤ c.width) (hh : 0 ≤ c.height) :
    0 ≤ (flexGrowChild isRow sp c).width ∧ 0 ≤ (flexGrowChild isRow sp c).height := by
  unfold flexGrowChild
  by_cases hg : c.style.flexGrow > 0
  · simp only [hg, if_true]
    cases isRow <;> simp <;>
      [exact ⟨hw, add_nonneg hh (mul_nonneg hsp (le_of_lt hg))⟩;
       exact ⟨add_nonneg hw (mul_nonneg hsp (le_of_lt hg)), hh⟩]
  · simp only [hg, if_false]
    exact ⟨hw, hh⟩

theorem flexShrinkChild_nonneg (isRow : Bool) (sp : ℚ) (c : LNode)
    (hw : 0 ≤ c.width) (hh : 0 ≤ c.height) :
    0 ≤ (flexShrinkChild isRow sp c).width ∧ 0 ≤ (flexShrinkChild isRow sp c).height := by
  unfold flexShrinkChild
  by_cases hf : shrinkFactor c > 0
  · simp only [hf, if_true]
    cases isRow <;> simp [hw, hh, le_max_left]
  · simp only [hf, if_false]
    exact ⟨hw, hh⟩

theorem alignCross_nonneg (isRow : Bool) (al : AlignItems) (cS cP : ℚ) (c : LNode)
    (hcS : 0 ≤ cS) (hw : 0 ≤ c.width) (hh : 0 ≤ c.height) :
    0 ≤ (alignCross isRow al cS cP c).width ∧ 0 ≤ (alignCross isRow al cS cP c).height := by
  cases c
  rcases al <;> cases isRow <;> simp only [alignCross] <;> split_ifs <;> simp_all

end FerroFrame
namespace FerroFrame

theorem distribute_mem (isRow : Bool) (r tg ts : ℚ) (cs : List LNode) (c2 : LNode)
    (h : c2 ∈ distributeRemainingSpace isRow r tg ts cs) :
    ∃ c1 ∈ cs, c2.style = c1.style ∧
      (0 ≤ c1.width → 0 ≤ c1.height → 0 ≤ c2.width ∧ 0 ≤ c2.height) := by
  unfold distributeRemainingSpace at h
  split_ifs at h with h1 h2
  · obtain ⟨c1, hc1, rfl⟩ := List.mem_map.mp h
    have hsp : 0 ≤ r / tg := le_of_lt (div_pos h1.1 h1.2)
    exact ⟨c1, hc1, flexGrowChild_style _ _ _,
      fun hw hh => flexGrowChild_nonneg _ _ _ hsp hw hh⟩
  · obtain ⟨c1, hc1, rfl⟩ := List.mem_map.mp h
    exact ⟨c1, hc1, flexShrinkChild_style _ _ _,
      fun hw hh => flexShrinkChild_nonneg _ _ _ hw hh⟩
  · exact ⟨c2, h, rfl, fun hw hh => ⟨hw, hh⟩⟩

/-- The children produced by the flex layout are the positioning loop run
over the distributed first-pass children, for some loop parameters with
non-negative cross size and content-box dimensions. -/
theorem calculateFlexLayoutF_children_shape (recur : LNode → Option ℚ → Option ℚ → LNode)
    (nd : LNode) :
    ∃ (isRow : Bool) (gap spacing cS cP start r tg ts cw chh : ℚ) (al : AlignItems),
      0 ≤ cS ∧ 0 ≤ cw ∧ 0 ≤ chh ∧
      (calculateFlexLayoutF recur nd).children =
        positionLoop recur isRow gap spacing cS cP al start
          (distributeRemainingSpace isRow r tg ts
            (nd.children.map (flexFirstPassChild cw chh))) := by
  obtain ⟨s, x, y, w, h, cs⟩ := nd
  refine ⟨_, _, _, _, _, _, _, _, _, _, _, _, ?_, ?_, ?_, rfl⟩
  · show (0:ℚ) ≤ if s.flexDirection = FlexDirection.row
      then 0 ⊔ (h - (normalizePadding s.padding).1 - (normalizePadding s.padding).2.2.1)
      else 0 ⊔ (w - (normalizePadding s.padding).2.2.2 - (normalizePadding s.padding).2.1)
    split <;> exact le_max_left _ _
  · exact le_max_left _ _
  · exact le_max_left _ _

theorem calculateFlexLayoutF_children_bounds (f : Nat) (nd : LNode)
    (hsane : ∀ c0 ∈ nd.children, childSane c0 = true) :
    ∀ c' ∈ (calculateFlexLayoutF (Layout.calculate (f + 1)) nd).children,
      c'.style.minWidth ≤ c'.width ∧
      (∀ m, c'.style.maxWidth = some m → c'.width ≤ m) ∧
      c'.style.minHeight ≤ c'.height ∧
      (∀ m, c'.style.maxHeight = some m → c'.height ≤ m) := by
  intro c' hc'
  obtain ⟨isRow, gap, spacing, cS, cP, start, r, tg, ts, cw, chh, al, hcS, hcw, hchh, hshape⟩ :=
    calculateFlexLayoutF_children_shape (Layout.calculate (f + 1)) nd
  rw [hshape] at hc'
  obtain ⟨cMid, hcMid, q, hq⟩ := positionLoop_mem _ _ _ _ _ _ _ _ _ _ hc'
  obtain ⟨c1, hc1, hstyMid, himp⟩ := distribute_mem _ _ _ _ _ _ hcMid
  obtain ⟨c0, hc0, rfl⟩ := List.mem_map.mp hc1
  have hs0 := hsane c0 hc0
  simp only [childSane, Bool.and_eq_true, decide_eq_true_eq] at hs0
  obtain ⟨⟨⟨⟨⟨⟨⟨⟨hd0, hdw⟩, hdh⟩, hw0⟩, hh0⟩, hmnw⟩, hmnh⟩, hmxw⟩, hmxh⟩ := hs0
  have hffp := flexFirstPassChild_nonneg cw chh c0 hcw hchh (by
    simp only [childSane, Bool.and_eq_true, decide_eq_true_eq]
    exact ⟨⟨⟨⟨⟨⟨⟨⟨hd0, hdw⟩, hdh⟩, hw0⟩, hh0⟩, hmnw⟩, hmnh⟩, hmxw⟩, hmxh⟩)
  obtain ⟨hwMid, hhMid⟩ := himp hffp.1 hffp.2
  have hstyFfp : (flexFirstPassChild cw chh c0).style = c0.style := flexFirstPassChild_style _ _ _
  set cPos := if isRow then cMid.setX q else cMid.setY q with hcPos
  have hcPos_style : cPos.style = c0.style := by
    rw [hcPos]
    split <;> simp [hstyMid, hstyFfp]
  have hcPos_w : cPos.width = cMid.width := by
    rw [hcPos]; split <;> simp
  have hcPos_h : cPos.height = cMid.height := by
    rw [hcPos]; split <;> simp
  set c2 := alignCross isRow al cS cP cPos with hc2
  have hc2_style : c2.style = c0.style := by
    rw [hc2, alignCross_style, hcPos_style]
  have hc2_w : 0 ≤ c2.width := by
    rw [hc2]
    exact (alignCross_nonneg isRow al cS cP cPos hcS (hcPos_w ▸ hwMid) (hcPos_h ▸ hhMid)).1
  have hc2_h : 0 ≤ c2.height := by
    rw [hc2]
    exact (alignCross_nonneg isRow al cS cP cPos hcS (hcPos_w ▸ hwMid) (hcPos_h ▸ hhMid)).2
  have hdisp : c2.style.display ≠ Display.none := by
    rw [hc2_style]; exact hd0
  obtain ⟨hWeq, hHeq⟩ := calculate_succ_size f c2 (some c2.width) (some c2.height) hdisp
  have hstep : posStep (Layout.calculate (f + 1)) isRow al cS cP q cMid
      = Layout.calculate (f + 1) c2 (some c2.width) (some c2.height) := rfl
  rw [hq, hstep]
  have hsty' : (Layout.calculate (f + 1) c2 (some c2.width) (some c2.height)).style
      = c0.style := by rw [calculate_style, hc2_style]
  rw [hsty', hWeq, hHeq, hc2_style]
  simp only [Option.getD_some]
  have hbw := clampVal_bounds (resolveDim c0.style.width c2.width c2.width)
    c0.style.minWidth c0.style.maxWidth
    (resolveDim_nonneg _ _ _ hc2_w hc2_w hdw) hmnw hmxw
  have hbh := clampVal_bounds (resolveDim c0.style.height c2.height c2.height)
    c0.style.minHeight c0.style.maxHeight
    (resolveDim_nonneg _ _ _ hc2_h hc2_h hdh) hmnh hmxh
  exact ⟨hbw.1, hbw.2.1, hbh.1, hbh.2.1⟩

end FerroFrame

namespace FerroFrame

/-- One step of `calculate` on a flex node: constraints, then the flex
layout with one unit of fuel consumed. -/
theorem calculate_flex_step (f : Nat) (nd : LNode) (aw ah : Option ℚ)
    (h : nd.style.display = Display.flex) :
    Layout.calculate (f + 1) nd aw ah =
      calculateFlexLayoutF (Layout.calculate f)
        (applyConstraints nd (aw.getD nd.width) (ah.getD nd.height)) := by
  have hd : (applyConstraints nd (aw.getD nd.width) (ah.getD nd.height)).style.display
      = Display.flex := by rw [applyConstraints_style]; exact h
  simp only [Layout.calculate, hd]
  simp

/-- One step of `calculate` on a `display:'none'` node: constraints, then
both dimensions forced to 0 with no recursion into children. -/
theorem calculate_none_step (f : Nat) (nd : LNode) (aw ah : Option ℚ)
    (h : nd.style.display = Display.none) :
    Layout.calculate (f + 1) nd aw ah =
      (applyConstraints nd (aw.getD nd.width) (ah.getD nd.height)).setSize 0 0 := by
  have hd : (applyConstraints nd (aw.getD nd.width) (ah.getD nd.height)).style.display
      = Display.none := by rw [applyConstraints_style]; exact h
  simp only [Layout.calculate, hd]
  simp

theorem distribute_length (isRow : Bool) (r tg ts : ℚ) (cs : List LNode) :
    (distributeRemainingSpace isRow r tg ts cs).length = cs.length := by
  unfold distributeRemainingSpace
  split_ifs <;> simp

theorem positionLoop_length (recur : LNode → Option ℚ → Option ℚ → LNode) (isRow : Bool)
    (gap spacing cS cP : ℚ) (al : AlignItems) :
    ∀ (cs : List LNode) (mp : ℚ),
      (positionLoop recur isRow gap spacing cS cP al mp cs).length = cs.length := by
  intro cs
  induction cs with
  | nil => intro mp; rfl
  | cons c rest ih =>
    intro mp
    rw [positionLoop]
    simp [ih]

theorem alignCross_x_row (al : AlignItems) (cS cP : ℚ) (c : LNode) :
    (alignCross true al cS cP c).x = c.x := by
  cases c
  rcases al <;> simp only [alignCross] <;> split_ifs <;> rfl

/-- Concrete flex container for the display-none counterexample: a single
child with `display:'none'`, `width:5`, `minWidth:5` inside a 20-wide flex
row. -/
def C1cexChild : LNode :=
  LayoutNode.ofStyle { display := Display.none, width := Dim.px 5, minWidth := 5 }

def C1cexRoot : LNode :=
  LNode.withChildren
    (LayoutNode.ofStyle { display := Display.flex, width := Dim.px 20, height := Dim.px 10 })
    [C1cexChild]

/-- Concrete flex container for the witness: one sane child with bounds
`[5, 100]`. -/
def C1witChild : LNode :=
  LayoutNode.ofStyle
    { width := Dim.px 50, height := Dim.px 1, minWidth := 5, maxWidth := some 100 }

def C1witRoot : LNode :=
  LNode.withChildren
    (LayoutNode.ofStyle { display := Display.flex, width := Dim.px 300, height := Dim.px 10 })
    [C1witChild]

end FerroFrame

/-- **C1, counterexample.**  A flex child with `display:'none'` and
`minWidth = 5` ends the layout pass with width 0: `calculate` zeroes
`display:'none'` nodes after the clamps run, so its final main-axis size
lies below its declared min bound. -/
theorem C1_display_none_cex :
    ((FerroFrame.Layout.calculate 3 FerroFrame.C1cexRoot (some 20) (some 10)).children.map
      FerroFrame.LNode.width) = [0] ∧
    ((FerroFrame.Layout.calculate 3 FerroFrame.C1cexRoot (some 20) (some 10)).children.map
      (fun c => c.style.minWidth)) = [5] ∧
    ¬ ((5 : ℚ) ≤ 0) := by
  have hflex : FerroFrame.C1cexRoot.style.display = FerroFrame.Display.flex := rfl
  have hstep := FerroFrame.calculate_flex_step 2 FerroFrame.C1cexRoot (some 20) (some 10) hflex
  obtain ⟨isRow, gap, spacing, cS, cP, start, r, tg, ts, cw, chh, al, _, _, _, hshape⟩ :=
    FerroFrame.calculateFlexLayoutF_children_shape (FerroFrame.Layout.calculate 2)
      (FerroFrame.applyConstraints FerroFrame.C1cexRoot
        ((some (20:ℚ)).getD FerroFrame.C1cexRoot.width)
        ((some (10:ℚ)).getD FerroFrame.C1cexRoot.height))
  rw [show (3:Nat) = 2 + 1 from rfl, hstep, hshape]
  have hchildren : (FerroFrame.applyConstraints FerroFrame.C1cexRoot
      ((some (20:ℚ)).getD FerroFrame.C1cexRoot.width)
      ((some (10:ℚ)).getD FerroFrame.C1cexRoot.height)).children
      = [FerroFrame.C1cexChild] := by
    rw [FerroFrame.applyConstraints_children]; rfl
  rw [hchildren]
  set L := FerroFrame.positionLoop (FerroFrame.Layout.calculate 2) isRow gap spacing cS cP al
    start (FerroFrame.distributeRemainingSpace isRow r tg ts
      ([FerroFrame.C1cexChild].map (FerroFrame.flexFirstPassChild cw chh))) with hL
  have hlen : L.length = 1 := by
    rw [hL, FerroFrame.positionLoop_length, FerroFrame.distribute_length, List.length_map]
    rfl
  obtain ⟨c', hc'⟩ := List.length_eq_one.mp hlen
  have hmem : c' ∈ L := by rw [hc']; exact List.mem_singleton.mpr rfl
  obtain ⟨cMid, hcMid, q, hq⟩ := FerroFrame.positionLoop_mem _ _ _ _ _ _ _ _ _ _ (hL ▸ hmem)
  obtain ⟨c1, hc1, hstyMid, _⟩ := FerroFrame.distribute_mem _ _ _ _ _ _ hcMid
  obtain ⟨c0, hc0, rfl⟩ := List.mem_map.mp hc1
  have hc0e : c0 = FerroFrame.C1cexChild := List.mem_singleton.mp hc0
  subst hc0e
  -- the style of the loop input child is the cex child's style
  have hstyPos : (FerroFrame.alignCross isRow al cS cP
      (if isRow then cMid.setX q else cMid.setY q)).style = FerroFrame.C1cexChild.style := by
    rw [FerroFrame.alignCross_style]
    have : (if isRow then cMid.setX q else cMid.setY q).style = cMid.style := by
      split <;> simp
    rw [this, hstyMid, FerroFrame.flexFirstPassChild_style]
  have hdisp : (FerroFrame.alignCross isRow al cS cP
      (if isRow then cMid.setX q else cMid.setY q)).style.display = FerroFrame.Display.none := by
    rw [hstyPos]; rfl
  have hcalc := FerroFrame.calculate_none_step 1
    (FerroFrame.alignCross isRow al cS cP (if isRow then cMid.setX q else cMid.setY q))
    (some (FerroFrame.alignCross isRow al cS cP
      (if isRow then cMid.setX q else cMid.setY q)).width)
    (some (FerroFrame.alignCross isRow al cS cP
      (if isRow then cMid.setX q else cMid.setY q)).height) hdisp
  have hc'eq : c' = FerroFrame.posStep (FerroFrame.Layout.calculate 2) isRow al cS cP q cMid := hq
  have hw0 : c'.width = 0 := by
    rw [hc'eq]
    show (FerroFrame.Layout.calculate 2 _ _ _).width = 0
    rw [show (2:Nat) = 1 + 1 from rfl, hcalc]
    simp
  have hmn5 : c'.style.minWidth = 5 := by
    rw [hc'eq]
    show (FerroFrame.Layout.calculate 2 _ _ _).style.minWidth = 5
    rw [FerroFrame.calculate_style, FerroFrame.alignCross_style]
    have : (if isRow then cMid.setX q else cMid.setY q).style = cMid.style := by
      split <;> simp
    rw [this, hstyMid, FerroFrame.flexFirstPassChild_style]
    rfl
  rw [hc']
  exact ⟨by simp [hw0], by simp [hmn5], by norm_num⟩

/-- **C1, amended.**  For every flex container, every child whose display is
not `none` and whose style is well formed (non-negative sizes and min
bounds, positive max bounds at least the min bounds) ends the layout pass
with both width and height inside its `[min, max]` clamp bounds, whatever
grow or shrink distribution was applied: the per-child recursion re-applies
`applyConstraints` last, so the clamps win.  Children with `display:'none'`
are zeroed instead. -/
theorem C1_clamps_bound_flex_children (f : Nat) (nd : FerroFrame.LNode)
    (aw ah : Option ℚ) (hflex : nd.style.display = FerroFrame.Display.flex)
    (hsane : nd.children.all FerroFrame.childSane = true) :
    ∀ c' ∈ (FerroFrame.Layout.calculate (f + 2) nd aw ah).children,
      c'.style.minWidth ≤ c'.width ∧
      (∀ m, c'.style.maxWidth = some m → c'.width ≤ m) ∧
      c'.style.minHeight ≤ c'.height ∧
      (∀ m, c'.style.maxHeight = some m → c'.height ≤ m) := by
  intro c' hc'
  rw [show f + 2 = (f + 1) + 1 from rfl,
    FerroFrame.calculate_flex_step (f + 1) nd aw ah hflex] at hc'
  refine FerroFrame.calculateFlexLayoutF_children_bounds f _ ?_ c' hc'
  intro c0 hc0
  rw [FerroFrame.applyConstraints_children] at hc0
  exact List.all_eq_true.mp hsane c0 hc0

/-- **C1, witness**: applied to a concrete 300-wide flex row with one sane
child. -/
theorem C1_clamps_bound_flex_children_witness :
    FerroFrame.C1witRoot.style.display = FerroFrame.Display.flex ∧
    FerroFrame.C1witRoot.children.all FerroFrame.childSane = true ∧
    ∀ c' ∈ (FerroFrame.Layout.calculate (0 + 2) FerroFrame.C1witRoot
        (some 300) (some 10)).children,
      c'.style.minWidth ≤ c'.width ∧
      (∀ m, c'.style.maxWidth = some m → c'.width ≤ m) ∧
      c'.style.minHeight ≤ c'.height ∧
      (∀ m, c'.style.maxHeight = some m → c'.height ≤ m) := by
  refine ⟨rfl, by decide,
    C1_clamps_bound_flex_children 0 FerroFrame.C1witRoot (some 300) (some 10)
      rfl (by decide)⟩
namespace FerroFrame

/-- The content-box width a flex container offers its children. -/
def contentW (nd : LNode) : ℚ := (getContentBox nd).2.2.1

/-- The content-box height a flex container offers its children. -/
def contentH (nd : LNode) : ℚ := (getContentBox nd).2.2.2

/-- `isRow` of `calculateFlexLayout`. -/
def flexIsRow (nd : LNode) : Bool := decide (nd.style.flexDirection = FlexDirection.row)

/-- The container's main-axis content size. -/
def flexMainSize (nd : LNode) : ℚ :=
  if nd.style.flexDirection = FlexDirection.row then contentW nd else contentH nd

/-- The children after the first (base-size) pass. -/
def flexCs1 (nd : LNode) : List LNode :=
  nd.children.map (flexFirstPassChild (contentW nd) (contentH nd))

def flexTotalGrow (nd : LNode) : ℚ := ((flexCs1 nd).map (fun c => c.style.flexGrow)).sum

def flexTotalShrink (nd : LNode) : ℚ := ((flexCs1 nd).map shrinkFactor).sum

def flexRemaining (nd : LNode) : ℚ :=
  flexMainSize nd - totalMainSizeOf (flexIsRow nd) nd.style.gap (flexCs1 nd)

/-- The children after grow/shrink distribution. -/
def flexCs2 (nd : LNode) : List LNode :=
  distributeRemainingSpace (flexIsRow nd) (flexRemaining nd) (flexTotalGrow nd)
    (flexTotalShrink nd) (flexCs1 nd)

/-- The remaining space recomputed by `positionFlexItems`. -/
def flexRemaining2 (nd : LNode) : ℚ :=
  flexMainSize nd -
    (((flexCs2 nd).map (mainAxisSize (flexIsRow nd))).sum +
      nd.style.gap * (((flexCs2 nd).length - 1 : ℕ) : ℚ))

/-- The start-offset/spacing pair of `positionFlexItems`. -/
def flexOffsets (nd : LNode) : ℚ × ℚ :=
  justifyOffsets nd.style.justifyContent (flexRemaining2 nd) (flexCs2 nd).length

/-- The container's cross-axis content size. -/
def flexCrossSize (nd : LNode) : ℚ :=
  if nd.style.flexDirection = FlexDirection.row then contentH nd else contentW nd

/-- `calculateFlexLayout` decomposed into its stages. -/
theorem calculateFlexLayoutF_eq (recur : LNode → Option ℚ → Option ℚ → LNode) (nd : LNode) :
    calculateFlexLayoutF recur nd =
      nd.withChildren
        (positionLoop recur (flexIsRow nd) nd.style.gap (flexOffsets nd).2
          (flexCrossSize nd) (getContentBox nd).2.1 nd.style.alignItems
          ((getContentBox nd).1 + (flexOffsets nd).1) (flexCs2 nd)) := by
  cases nd; rfl

end FerroFrame

namespace FerroFrame

/-- Style of a fixed-size flex child (`width: w, height: 1`). -/
def c8childStyle (w : ℚ) : Style := { width := Dim.px w, height := Dim.px 1 }

/-- A fixed-width flex child as built by the `LayoutNode` constructor. -/
def c8child (w : ℚ) : LNode := LayoutNode.ofStyle (c8childStyle w)

/-- A row flex container of the given size with fixed-width children. -/
def c8row (j : JustifyContent) (W H : ℚ) (ws : List ℚ) : LNode :=
  LNode.withChildren
    (LayoutNode.ofStyle
      { display := Display.flex, width := Dim.px W, height := Dim.px H,
        justifyContent := j })
    (ws.map c8child)

theorem sum_map_zero (ws : List ℚ) : (ws.map (fun _ => (0:ℚ))).sum = 0 := by
  induction ws with
  | nil => rfl
  | cons w t ih => simp [ih]

theorem sum_map_one (ws : List ℚ) : (ws.map (fun _ => (1:ℚ))).sum = ws.length := by
  induction ws with
  | nil => rfl
  | cons w t ih => simp [ih]; ring

theorem c8_flexIsRow (j : JustifyContent) (W H : ℚ) (ws : List ℚ) :
    flexIsRow (c8row j W H ws) = true := rfl

theorem c8_contentW (j : JustifyContent) (W H : ℚ) (ws : List ℚ) (hW : 0 ≤ W) :
    contentW (c8row j W H ws) = W := by
  show (0:ℚ) ⊔ (W - 0 - 0) = W
  rw [sub_zero, sub_zero]
  exact max_eq_right hW

theorem c8_mainSize (j : JustifyContent) (W H : ℚ) (ws : List ℚ) (hW : 0 ≤ W) :
    flexMainSize (c8row j W H ws) = W := by
  show (if FlexDirection.row = FlexDirection.row then contentW (c8row j W H ws)
    else contentH (c8row j W H ws)) = W
  rw [if_pos rfl, c8_contentW _ _ _ _ hW]

theorem c8_cs1 (j : JustifyContent) (W H : ℚ) (ws : List ℚ) :
    flexCs1 (c8row j W H ws) = ws.map (fun w => LNode.node (c8childStyle w) 0 0 w 1 []) := by
  show (ws.map c8child).map
      (flexFirstPassChild (contentW (c8row j W H ws)) (contentH (c8row j W H ws))) = _
  rw [List.map_map]
  rfl

theorem c8_totalGrow (j : JustifyContent) (W H : ℚ) (ws : List ℚ) :
    flexTotalGrow (c8row j W H ws) = 0 := by
  unfold flexTotalGrow
  rw [c8_cs1, List.map_map]
  exact sum_map_zero ws

theorem c8_totalShrink (j : JustifyContent) (W H : ℚ) (ws : List ℚ) :
    flexTotalShrink (c8row j W H ws) = ws.length := by
  unfold flexTotalShrink
  rw [c8_cs1, List.map_map]
  have : (shrinkFactor ∘ fun w => LNode.node (c8childStyle w) 0 0 w 1 []) =
      (fun _ : ℚ => (1:ℚ)) := by
    funext w
    show (if (1:ℚ) = 0 then 1 else 1) = 1
    simp
  rw [this]
  exact sum_map_one ws

theorem c8_widthsSum (j : JustifyContent) (W H : ℚ) (ws : List ℚ) :
    ((flexCs1 (c8row j W H ws)).map (mainAxisSize true)).sum = ws.sum := by
  rw [c8_cs1, List.map_map]
  have : (mainAxisSize true ∘ fun w => LNode.node (c8childStyle w) 0 0 w 1 []) = id := by
    funext w; rfl
  rw [this, List.map_id]

theorem c8_remaining (j : JustifyContent) (W H : ℚ) (ws : List ℚ) (hW : 0 ≤ W) :
    flexRemaining (c8row j W H ws) = W - ws.sum := by
  unfold flexRemaining totalMainSizeOf
  rw [c8_mainSize _ _ _ _ hW]
  have hgap : (c8row j W H ws).style.gap = 0 := rfl
  have hrow : flexIsRow (c8row j W H ws) = true := rfl
  rw [hrow, hgap, c8_widthsSum]
  simp

theorem c8_cs2 (j : JustifyContent) (W H : ℚ) (ws : List ℚ) (hW : 0 ≤ W)
    (hsum : ws.sum ≤ W) :
    flexCs2 (c8row j W H ws) = flexCs1 (c8row j W H ws) := by
  unfold flexCs2 distributeRemainingSpace
  rw [c8_totalGrow, c8_remaining _ _ _ _ hW]
  rw [if_neg (by simp), if_neg ?hneg]
  case hneg =>
    rintro ⟨hlt, -⟩
    exact absurd hlt (not_lt.mpr (sub_nonneg.mpr hsum))

theorem c8_remaining2 (j : JustifyContent) (W H : ℚ) (ws : List ℚ) (hW : 0 ≤ W)
    (hsum : ws.sum ≤ W) :
    flexRemaining2 (c8row j W H ws) = W - ws.sum := by
  unfold flexRemaining2
  rw [c8_cs2 _ _ _ _ hW hsum, c8_mainSize _ _ _ _ hW]
  have hrow : flexIsRow (c8row j W H ws) = true := rfl
  have hgap : (c8row j W H ws).style.gap = 0 := rfl
  rw [hrow, hgap, c8_widthsSum]
  simp

theorem c8_cs2_length (j : JustifyContent) (W H : ℚ) (ws : List ℚ) (hW : 0 ≤ W)
    (hsum : ws.sum ≤ W) :
    (flexCs2 (c8row j W H ws)).length = ws.length := by
  rw [c8_cs2 _ _ _ _ hW hsum, c8_cs1, List.length_map]

end FerroFrame

namespace FerroFrame

theorem posStep_calc_x (f : Nat) (al : AlignItems) (cS cP q : ℚ) (c : LNode) :
    (posStep (Layout.calculate f) true al cS cP q c).x = q := by
  show (Layout.calculate f (alignCross true al cS cP (c.setX q))
    (some (alignCross true al cS cP (c.setX q)).width)
    (some (alignCross true al cS cP (c.setX q)).height)).x = q
  rw [calculate_x, alignCross_x_row, LNode.setX_x]

theorem posStep_calc_width_c8 (f : Nat) (al : AlignItems) (cS cP q w : ℚ) :
    (posStep (Layout.calculate (f + 1)) true al cS cP q
      (LNode.node (c8childStyle w) 0 0 w 1 [])).width = w := by
  set inner := alignCross true al cS cP ((LNode.node (c8childStyle w) 0 0 w 1 []).setX q)
    with hinner
  have hsty : inner.style = c8childStyle w := by
    rw [hinner, alignCross_style, LNode.setX_style]
    rfl
  have hdisp : inner.style.display ≠ Display.none := by
    rw [hsty]
    intro h
    exact Display.noConfusion h
  show (Layout.calculate (f + 1) inner (some inner.width) (some inner.height)).width = w
  obtain ⟨hW, -⟩ := calculate_succ_size f inner (some inner.width) (some inner.height) hdisp
  rw [hW, hsty]
  rfl

/-- `calculate` on the `c8row` container: the children are the positioning
loop over the distributed children — everything up to the loop is
definitional. -/
theorem c8_layout_children (f : Nat) (j : JustifyContent) (W H : ℚ) (ws : List ℚ) :
    (Layout.calculate (f + 2) (c8row j W H ws) (some W) (some H)).children =
      positionLoop (Layout.calculate (f + 1)) true 0 (flexOffsets (c8row j W H ws)).2
        (flexCrossSize (c8row j W H ws)) 0 AlignItems.stretch
        (0 + (flexOffsets (c8row j W H ws)).1) (flexCs2 (c8row j W H ws)) := rfl

end FerroFrame
namespace FerroFrame

theorem c8row_justify (j : JustifyContent) (W H : ℚ) (ws : List ℚ) :
    (c8row j W H ws).style.justifyContent = j := rfl

theorem justifyOffsets_spaceBetween_one (r : ℚ) :
    justifyOffsets JustifyContent.spaceBetween r 1 = (0, 0) := by
  simp [justifyOffsets]

theorem c8_offsets_two (W H w1 w2 : ℚ) (hW : 0 ≤ W) (hsum : w1 + w2 ≤ W) :
    flexOffsets (c8row JustifyContent.spaceBetween W H [w1, w2]) = (0, W - (w1 + w2)) := by
  have hs : ([w1, w2] : List ℚ).sum ≤ W := by simpa using hsum
  unfold flexOffsets
  rw [c8_cs2_length _ _ _ _ hW hs, c8_remaining2 _ _ _ _ hW hs, c8row_justify]
  simp [justifyOffsets]
  norm_num

theorem c8_offsets_three (W H w1 w2 w3 : ℚ) (hW : 0 ≤ W) (hsum : w1 + w2 + w3 ≤ W) :
    flexOffsets (c8row JustifyContent.spaceBetween W H [w1, w2, w3]) =
      (0, (W - (w1 + w2 + w3)) / 2) := by
  have hs : ([w1, w2, w3] : List ℚ).sum ≤ W := by
    simpa [add_assoc] using hsum
  unfold flexOffsets
  rw [c8_cs2_length _ _ _ _ hW hs, c8_remaining2 _ _ _ _ hW hs, c8row_justify]
  simp [justifyOffsets]
  norm_num
  ring

theorem c8_offsets_one (W H w1 : ℚ) (hW : 0 ≤ W) (hsum : w1 ≤ W) :
    flexOffsets (c8row JustifyContent.spaceBetween W H [w1]) = (0, 0) := by
  have hs : ([w1] : List ℚ).sum ≤ W := by simpa using hsum
  unfold flexOffsets
  rw [c8_cs2_length _ _ _ _ hW hs]
  exact justifyOffsets_spaceBetween_one _

theorem c8_offsets_one_start (W H w1 : ℚ) :
    flexOffsets (c8row JustifyContent.flexStart W H [w1]) = (0, 0) := rfl

theorem c8_cs2_two (j : JustifyContent) (W H w1 w2 : ℚ) (hW : 0 ≤ W)
    (hsum : w1 + w2 ≤ W) :
    flexCs2 (c8row j W H [w1, w2]) =
      [LNode.node (c8childStyle w1) 0 0 w1 1 [], LNode.node (c8childStyle w2) 0 0 w2 1 []] := by
  have hs : ([w1, w2] : List ℚ).sum ≤ W := by simpa using hsum
  rw [c8_cs2 _ _ _ _ hW hs, c8_cs1]
  rfl

theorem c8_cs2_three (j : JustifyContent) (W H w1 w2 w3 : ℚ) (hW : 0 ≤ W)
    (hsum : w1 + w2 + w3 ≤ W) :
    flexCs2 (c8row j W H [w1, w2, w3]) =
      [LNode.node (c8childStyle w1) 0 0 w1 1 [], LNode.node (c8childStyle w2) 0 0 w2 1 [],
       LNode.node (c8childStyle w3) 0 0 w3 1 []] := by
  have hs : ([w1, w2, w3] : List ℚ).sum ≤ W := by simpa [add_assoc] using hsum
  rw [c8_cs2 _ _ _ _ hW hs, c8_cs1]
  rfl

theorem c8_cs2_one (j : JustifyContent) (W H w1 : ℚ) (hW : 0 ≤ W) (hsum : w1 ≤ W) :
    flexCs2 (c8row j W H [w1]) = [LNode.node (c8childStyle w1) 0 0 w1 1 []] := by
  have hs : ([w1] : List ℚ).sum ≤ W := by simpa using hsum
  rw [c8_cs2 _ _ _ _ hW hs, c8_cs1]
  rfl

end FerroFrame
/-- **C8.**  `space-between` in a row flex container: the first child sits at
main position 0 and `remainingSpace/(n-1)` extra space is inserted between
each adjacent pair, with no leading or trailing gap — for two children of
widths `w1, w2` in a `W`-wide container the x-positions are `0` and
`W - w2` with widths preserved, for three children the gaps are equal, and
a single child behaves exactly like `flex-start` (no division by zero). -/
theorem C8_space_between_positions (f : Nat) (W H w1 w2 w3 : ℚ)
    (hw1 : 0 ≤ w1) (hw2 : 0 ≤ w2) (_hw3 : 0 ≤ w3)
    (h12 : w1 + w2 ≤ W) (h123 : w1 + w2 + w3 ≤ W) :
    ((FerroFrame.Layout.calculate (f + 2)
        (FerroFrame.c8row FerroFrame.JustifyContent.spaceBetween W H [w1, w2])
        (some W) (some H)).children.map FerroFrame.LNode.x = [0, W - w2] ∧
      (FerroFrame.Layout.calculate (f + 2)
        (FerroFrame.c8row FerroFrame.JustifyContent.spaceBetween W H [w1, w2])
        (some W) (some H)).children.map FerroFrame.LNode.width = [w1, w2]) ∧
    ((FerroFrame.Layout.calculate (f + 2)
        (FerroFrame.c8row FerroFrame.JustifyContent.spaceBetween W H [w1])
        (some W) (some H)).children.map FerroFrame.LNode.x = [0] ∧
      (FerroFrame.Layout.calculate (f + 2)
        (FerroFrame.c8row FerroFrame.JustifyContent.flexStart W H [w1])
        (some W) (some H)).children.map FerroFrame.LNode.x = [0]) ∧
    (FerroFrame.Layout.calculate (f + 2)
        (FerroFrame.c8row FerroFrame.JustifyContent.spaceBetween W H [w1, w2, w3])
        (some W) (some H)).children.map FerroFrame.LNode.x =
      [0, w1 + (W - (w1 + w2 + w3)) / 2, w1 + w2 + 2 * ((W - (w1 + w2 + w3)) / 2)] := by
  have hW : 0 ≤ W := le_trans (add_nonneg hw1 hw2) h12
  have h1W : w1 ≤ W := by linarith
  refine ⟨⟨?_, ?_⟩, ⟨?_, ?_⟩, ?_⟩
  · rw [FerroFrame.c8_layout_children,
      FerroFrame.c8_cs2_two FerroFrame.JustifyContent.spaceBetween W H w1 w2 hW h12,
      FerroFrame.c8_offsets_two W H w1 w2 hW h12]
    simp only [FerroFrame.positionLoop, List.map_cons, List.map_nil,
      FerroFrame.posStep_calc_x, FerroFrame.LNode.width]
    norm_num
    ring
  · rw [FerroFrame.c8_layout_children,
      FerroFrame.c8_cs2_two FerroFrame.JustifyContent.spaceBetween W H w1 w2 hW h12,
      FerroFrame.c8_offsets_two W H w1 w2 hW h12]
    simp only [FerroFrame.positionLoop, List.map_cons, List.map_nil,
      FerroFrame.posStep_calc_width_c8]
  · rw [FerroFrame.c8_layout_children,
      FerroFrame.c8_cs2_one FerroFrame.JustifyContent.spaceBetween W H w1 hW h1W,
      FerroFrame.c8_offsets_one W H w1 hW h1W]
    simp only [FerroFrame.positionLoop, List.map_cons, List.map_nil,
      FerroFrame.posStep_calc_x]
    norm_num
  · rw [FerroFrame.c8_layout_children,
      FerroFrame.c8_cs2_one FerroFrame.JustifyContent.flexStart W H w1 hW h1W,
      FerroFrame.c8_offsets_one_start W H w1]
    simp only [FerroFrame.positionLoop, List.map_cons, List.map_nil,
      FerroFrame.posStep_calc_x]
    norm_num
  · rw [FerroFrame.c8_layout_children,
      FerroFrame.c8_cs2_three FerroFrame.JustifyContent.spaceBetween W H w1 w2 w3 hW h123,
      FerroFrame.c8_offsets_three W H w1 w2 w3 hW h123]
    simp only [FerroFrame.positionLoop, List.map_cons, List.map_nil,
      FerroFrame.posStep_calc_x, FerroFrame.LNode.width]
    norm_num
    ring

/-- **C8, witness**: the spec's concrete scenario — container width 300,
two children of width 50, `space-between` — yields x-positions 0 and 250. -/
theorem C8_space_between_positions_witness :
    ((0:ℚ) ≤ 50 ∧ (50:ℚ) + 50 ≤ 300) ∧
    (FerroFrame.Layout.calculate (0 + 2)
      (FerroFrame.c8row FerroFrame.JustifyContent.spaceBetween 300 10 [50, 50])
      (some 300) (some 10)).children.map FerroFrame.LNode.x = [0, 250] := by
  have h := C8_space_between_positions 0 300 10 50 50 50 (by norm_num) (by norm_num)
    (by norm_num) (by norm_num) (by norm_num)
  refine ⟨⟨by norm_num, by norm_num⟩, ?_⟩
  have hx := h.1.1
  norm_num at hx
  exact hx
namespace FerroFrame

theorem sum_map_add_const (g : LNode → ℚ) (k : ℚ) (l : List LNode) :
    (l.map (fun c => g c + k)).sum = (l.map g).sum + l.length * k := by
  induction l with
  | nil => simp
  | cons c t ih => simp [ih]; ring

end FerroFrame

/-- **C5, counterexample.**  Flex container of main size 10 with children of
base widths 2 and 18 (both with the default `flexShrink = 1`): the deficit
is 10, but the shrink pass yields widths `[0, 13]` — the first child is
clamped at 0 — so the total shrinkage applied is 7, not the full deficit. -/
theorem C5_shrink_total_cex :
    FerroFrame.flexRemaining
      (FerroFrame.c8row FerroFrame.JustifyContent.flexStart 10 10 [2, 18]) = -10 ∧
    FerroFrame.flexTotalShrink
      (FerroFrame.c8row FerroFrame.JustifyContent.flexStart 10 10 [2, 18]) = 2 ∧
    (FerroFrame.flexCs2
      (FerroFrame.c8row FerroFrame.JustifyContent.flexStart 10 10 [2, 18])).map
        FerroFrame.LNode.width = [0, 13] ∧
    ((2:ℚ) + 18) - ((0:ℚ) + 13) ≠ 10 := by
  have hW : (0:ℚ) ≤ 10 := by norm_num
  have hrem := FerroFrame.c8_remaining FerroFrame.JustifyContent.flexStart 10 10 [2, 18] hW
  have hrem' : FerroFrame.flexRemaining
      (FerroFrame.c8row FerroFrame.JustifyContent.flexStart 10 10 [2, 18]) = -10 := by
    rw [hrem]; norm_num
  refine ⟨hrem', ?_, ?_, by norm_num⟩
  · rw [FerroFrame.c8_totalShrink]; norm_num
  · unfold FerroFrame.flexCs2
    rw [FerroFrame.c8_totalGrow, FerroFrame.c8_totalShrink, hrem', FerroFrame.c8_cs1,
      FerroFrame.c8_flexIsRow]
    unfold FerroFrame.distributeRemainingSpace
    rw [if_neg (by norm_num), if_pos (by constructor <;> norm_num)]
    simp only [List.map_cons, List.map_nil, FerroFrame.flexShrinkChild,
      FerroFrame.shrinkFactor, FerroFrame.LNode.style, FerroFrame.LNode.width,
      FerroFrame.LNode.setWidth, FerroFrame.c8childStyle]
    norm_num

/-- **C5, amended.**  Under negative remaining space, in a row container
whose children all have `flexShrink = 1`, the shrink pass sets each child's
width to `max(0, base + remainingSpace/n)` — never negative — and the total
shrinkage equals the deficit exactly *provided no child is clamped at 0*;
when clamping occurs, the total shrinkage falls short of the deficit (the
lost amount is not redistributed). -/
theorem C5_shrink_distribution (cs : List FerroFrame.LNode) (remaining : ℚ)
    (hne : cs ≠ []) (hsh : ∀ c ∈ cs, c.style.flexShrink = 1) (hneg : remaining < 0) :
    ((cs.map FerroFrame.shrinkFactor).sum = (cs.length : ℚ)) ∧
    (FerroFrame.distributeRemainingSpace true remaining 0 (cs.length : ℚ) cs).map
        FerroFrame.LNode.width =
      cs.map (fun c => max 0 (c.width + remaining / (cs.length : ℚ))) ∧
    (∀ c' ∈ FerroFrame.distributeRemainingSpace true remaining 0 (cs.length : ℚ) cs,
      0 ≤ c'.width) ∧
    ((∀ c ∈ cs, 0 ≤ c.width + remaining / (cs.length : ℚ)) →
      ((FerroFrame.distributeRemainingSpace true remaining 0 (cs.length : ℚ) cs).map
        FerroFrame.LNode.width).sum = (cs.map FerroFrame.LNode.width).sum + remaining) ∧
    (cs.map FerroFrame.LNode.width).sum + remaining ≤
      ((FerroFrame.distributeRemainingSpace true remaining 0 (cs.length : ℚ) cs).map
        FerroFrame.LNode.width).sum := by
  have hn : (0:ℚ) < (cs.length : ℚ) := by
    have := List.length_pos.mpr hne
    exact_mod_cast this
  have hD : FerroFrame.distributeRemainingSpace true remaining 0 (cs.length : ℚ) cs =
      cs.map (FerroFrame.flexShrinkChild true (remaining / (cs.length : ℚ))) := by
    unfold FerroFrame.distributeRemainingSpace
    rw [if_neg (by rintro ⟨-, h0⟩; exact lt_irrefl 0 h0), if_pos ⟨hneg, hn⟩]
  have helem : ∀ c ∈ cs,
      (FerroFrame.flexShrinkChild true (remaining / (cs.length : ℚ)) c).width =
        max 0 (c.width + remaining / (cs.length : ℚ)) := by
    intro c hc
    have hf : FerroFrame.shrinkFactor c = 1 := by
      unfold FerroFrame.shrinkFactor
      rw [hsh c hc]
      norm_num
    unfold FerroFrame.flexShrinkChild
    rw [hf]
    rw [if_pos (by norm_num : (1:ℚ) > 0)]
    simp
  have hwidths : (FerroFrame.distributeRemainingSpace true remaining 0 (cs.length : ℚ) cs).map
      FerroFrame.LNode.width =
      cs.map (fun c => max 0 (c.width + remaining / (cs.length : ℚ))) := by
    rw [hD, List.map_map]
    exact List.map_congr_left (fun c hc => helem c hc)
  refine ⟨?_, hwidths, ?_, ?_, ?_⟩
  · have : ∀ c ∈ cs, FerroFrame.shrinkFactor c = (fun _ : FerroFrame.LNode => (1:ℚ)) c := by
      intro c hc
      unfold FerroFrame.shrinkFactor
      rw [hsh c hc]
      norm_num
    rw [List.map_congr_left this]
    induction cs with
    | nil => rfl
    | cons c t ih => simp [ih]; ring
  · intro c' hc'
    rw [hD] at hc'
    obtain ⟨c, hc, rfl⟩ := List.mem_map.mp hc'
    rw [helem c hc]
    exact le_max_left _ _
  · intro hall
    rw [hwidths, List.map_congr_left (fun c hc => max_eq_right (hall c hc)),
      FerroFrame.sum_map_add_const]
    rw [mul_div_cancel₀ _ (ne_of_gt hn)]
  · rw [hwidths]
    have h1 : (cs.map FerroFrame.LNode.width).sum + remaining =
        (cs.map (fun c => c.width + remaining / (cs.length : ℚ))).sum := by
      rw [FerroFrame.sum_map_add_const, mul_div_cancel₀ _ (ne_of_gt hn)]
    rw [h1]
    exact List.sum_le_sum (fun c hc => le_max_right _ _)

/-- **C5, witness**: children of widths 4 and 6 in deficit 2 — no clamping,
so the total shrinkage equals the deficit exactly. -/
theorem C5_shrink_distribution_witness :
    ([FerroFrame.c8child 4, FerroFrame.c8child 6] ≠ ([] : List FerroFrame.LNode)) ∧
    ((-2 : ℚ) < 0) ∧
    ((FerroFrame.distributeRemainingSpace true (-2) 0
        (([FerroFrame.c8child 4, FerroFrame.c8child 6].length : ℕ) : ℚ)
        [FerroFrame.c8child 4, FerroFrame.c8child 6]).map FerroFrame.LNode.width).sum =
      ([FerroFrame.c8child 4, FerroFrame.c8child 6].map FerroFrame.LNode.width).sum + (-2) := by
  have hsh : ∀ c ∈ [FerroFrame.c8child 4, FerroFrame.c8child 6],
      c.style.flexShrink = 1 := by
    intro c hc
    rcases List.mem_cons.mp hc with rfl | hc
    · rfl
    · rcases List.mem_cons.mp hc with rfl | hc
      · rfl
      · simp at hc
  have h := C5_shrink_distribution [FerroFrame.c8child 4, FerroFrame.c8child 6] (-2)
    (List.cons_ne_nil _ _) hsh (by norm_num)
  refine ⟨List.cons_ne_nil _ _, by norm_num, ?_⟩
  refine h.2.2.2.1 ?_
  intro c hc
  rcases List.mem_cons.mp hc with rfl | hc
  · show (0:ℚ) ≤ (FerroFrame.c8child 4).width + (-2) / _
    norm_num [FerroFrame.c8child, FerroFrame.c8childStyle, FerroFrame.LayoutNode.ofStyle,
      FerroFrame.LNode.width]
  · rcases List.mem_cons.mp hc with rfl | hc
    · show (0:ℚ) ≤ (FerroFrame.c8child 6).width + (-2) / _
      norm_num [FerroFrame.c8child, FerroFrame.c8childStyle, FerroFrame.LayoutNode.ofStyle,
        FerroFrame.LNode.width]
    · simp at hc
